import Mathlib

/-!
# SnakeGame: the simulation engine of `script.js`

A shallow embedding of the `Game` class of `src/script.js` (lines 45-222):
`init`, `placeFood`, `setSpeed`, `start`, `pause`, `toggle`, `restart`, `tick`,
`step`, `setDirection`, `isOpposite` and `gameOver`, and of the Records store
(lines 460-483).

Conventions of the embedding.

* Numbers that hold grid coordinates and scores are `Int`; times (`acc`,
  `interval`, `speed`, `dt`) are rationals.  `tick`, `tickLoop` and `setSpeed`
  compute on them exactly, which agrees with the source as long as no operation
  rounds; `tickDouble`, `tickLoopDouble` and `setSpeedDouble` round every result
  to IEEE 754 binary64 (`roundDouble`), as the source does, and carry the claims
  about the catch-up arithmetic.
* `Math.random()` is the stream `rand : Nat → ℚ` carried by the state; every call
  reads `rand 0` and shifts the stream by one.
* The JavaScript `Set` of keys is an insertion-ordered list without repetition;
  the key string `x,y` is represented by the pair `(x, y)` (the string is an
  injective encoding of a pair of integers).
* A `TypeError` thrown by a property access on `undefined` is `Fault.typeError`;
  the `while` loop of `tick` runs on fuel and `Fault.fuel` means the fuel ran out.
* Rendering (`draw`, `updateOverlay`, the DOM text nodes) and `performance.now()`
  are outside the embedding.  The calls of `step()` and of the Records
  collaborator `updateRecords(score)` are recorded in `calls`; the engine does
  not run the collaborator.
* The Records store (`loadRecords`, `updateRecords`, lines 463-483) and the read of
  the stored high score (line 59) are embedded on their own: `localStorage.getItem`,
  `JSON.parse` and `Number` are taken by their outcome, and `Date.now()` is an
  argument.
-/

namespace SnakeGame

/-- Side length of the board, `const GRID = 21`. -/
def GRID : Int := 21

/-- Number of cells of a fresh snake, `const INITIAL_LEN = 4`. -/
def INITIAL_LEN : Nat := 4

/-- The `State` enumeration of line 25. -/
inductive State where
  | Ready
  | Running
  | Paused
  | Over
  deriving DecidableEq, Repr

/-- An object with integer fields `x` and `y`: a cell or a direction. -/
structure Vec where
  x : Int
  y : Int
  deriving DecidableEq, Repr

/-- Ways in which a call can fail to return. -/
inductive Fault where
  | typeError
  | fuel
  deriving DecidableEq, Repr

/-- Calls that the embedding records: `step()` with the phase it started in, and
`updateRecords(score)`. -/
inductive Call where
  | step (phase : State)
  | updateRecords (score : Int)
  deriving DecidableEq, Repr

/-- The function `randInt(min, max)` of line 28 applied to the value `r` returned by
`Math.random()`.  The product is taken exactly: the cell that a given `r` yields can differ
from the source's when `r` lies within one rounding of a multiple of `1 / 21`. -/
def randInt (r : ℚ) (min max : Int) : Int :=
  Int.floor (r * ((max - min + 1 : Int) : ℚ)) + min

/-- The key of a cell, line 29. -/
def key (x y : Int) : Int × Int := (x, y)

/-- `Set.prototype.has`. -/
def setHas (k : Int × Int) (s : List (Int × Int)) : Bool := decide (k ∈ s)

/-- `Set.prototype.add`. -/
def setAdd (k : Int × Int) (s : List (Int × Int)) : List (Int × Int) :=
  if k ∈ s then s else s ++ [k]

/-- `Set.prototype.delete`. -/
def setDelete (k : Int × Int) (s : List (Int × Int)) : List (Int × Int) :=
  s.filter (fun e => decide (e ≠ k))

/-- The fields of a `Game` object together with the random stream and the call record. -/
structure Game where
  state : State
  speed : ℚ
  interval : ℚ
  acc : ℚ
  snake : List Vec
  dir : Vec
  nextDir : Vec
  occupy : List (Int × Int)
  food : Vec
  score : Int
  highScore : Int
  rand : Nat → ℚ
  calls : List Call

/-- One call of `Math.random()`: the value read and the state with the stream shifted. -/
def random (g : Game) : ℚ × Game :=
  (g.rand 0, { g with rand := fun n => g.rand (n + 1) })

/-- The `do ... while` loop of `placeFood` (lines 90-95).  The argument is
`1000 - tries` at the start of an iteration: at `0` the incremented `tries`
exceeds 1000 and the loop breaks. -/
def placeFoodLoop : Nat → Game → Game
  | left, g =>
    let (r1, g1) := random g
    let g2 := { g1 with food := { g1.food with x := randInt r1 0 (GRID - 1) } }
    let (r2, g3) := random g2
    let g4 := { g3 with food := { g3.food with y := randInt r2 0 (GRID - 1) } }
    match left with
    | 0 => g4
    | k + 1 =>
      if setHas (key g4.food.x g4.food.y) g4.occupy then placeFoodLoop k g4 else g4

/-- The method `placeFood` (lines 87-96). -/
def placeFood (g : Game) : Game := placeFoodLoop 1000 g

/-- The method `init` (lines 67-85). -/
def init (g : Game) : Game :=
  let g1 := { g with snake := [], occupy := [] }
  let mid : Int := GRID / 2
  let g2 := (List.range INITIAL_LEN).foldl
    (fun (h : Game) (i : Nat) =>
      let seg : Vec := { x := (i : Int) + 2, y := mid }
      { h with snake := h.snake ++ [seg], occupy := setAdd (key seg.x seg.y) h.occupy })
    g1
  let g3 := { g2 with dir := { x := 1, y := 0 }, nextDir := { x := 1, y := 0 }, score := 0 }
  placeFood g3

/-- The constructor (lines 46-65): `speed` is the value of the speed input and
`highScore` the number read from storage. -/
def construct (speed : ℚ) (highScore : Int) (rand : Nat → ℚ) : Game :=
  init
    { state := State.Ready
      speed := speed
      interval := 1000 / speed
      acc := 0
      snake := []
      dir := { x := 1, y := 0 }
      nextDir := { x := 1, y := 0 }
      occupy := []
      food := { x := 10, y := 10 }
      score := 0
      highScore := highScore
      rand := rand
      calls := [] }

/-- The method `setSpeed` (lines 98-101) with the quotient taken exactly; `setSpeedDouble`
rounds it as the source does.  The control surface passes `v > 0`; at `v = 0` the division
of the source yields `Infinity`, which the rationals do not represent. -/
def setSpeed (v : ℚ) (g : Game) : Game :=
  { g with speed := v, interval := 1000 / v }

/-- The method `start` (lines 103-108). -/
def start (g : Game) : Game :=
  if g.state = State.Running then g
  else
    let g1 := if g.state = State.Over then init g else g
    { g1 with state := State.Running }

/-- The method `pause` (lines 110-114). -/
def pause (g : Game) : Game :=
  if g.state ≠ State.Running then g else { g with state := State.Paused }

/-- The method `toggle` (lines 116-119). -/
def toggle (g : Game) : Game :=
  if g.state = State.Running then pause g else start g

/-- The method `restart` (lines 121-126). -/
def restart (g : Game) : Game :=
  init { g with state := State.Ready, acc := 0 }

/-- The method `isOpposite` (lines 210-212). -/
def isOpposite (a b : Vec) : Bool :=
  decide (a.x + b.x = 0) && decide (a.y + b.y = 0)

/-- The method `setDirection` (lines 204-208). -/
def setDirection (d : Vec) (g : Game) : Game :=
  if isOpposite g.dir d then g else { g with nextDir := d }

/-- The method `gameOver` (lines 214-222). -/
def gameOver (g : Game) : Game :=
  let g1 := { g with state := State.Over }
  if g1.score > 0 then { g1 with calls := g1.calls ++ [Call.updateRecords g1.score] } else g1

/-- Lines 159-161 of `step`: the pending direction is committed unless it reverses. -/
def commitDir (g : Game) : Game :=
  if !isOpposite g.dir g.nextDir then { g with dir := g.nextDir } else g

/-- State of `step` after lines 158-161: the call is recorded and the direction committed. -/
def entered (g0 : Game) : Game :=
  commitDir { g0 with calls := g0.calls ++ [Call.step g0.state] }

/-- Candidate head `(nx, ny)` of lines 162-164: the head cell moved by the direction. -/
def candidate (g : Game) (head : Vec) : Vec :=
  { x := head.x + g.dir.x, y := head.y + g.dir.y }

/-- The wall test of line 167. -/
def offGrid (c : Vec) : Prop := c.x < 0 ∨ c.x ≥ GRID ∨ c.y < 0 ∨ c.y ≥ GRID

instance instDecidableOffGrid (c : Vec) : Decidable (offGrid c) := by
  unfold offGrid; infer_instance

/-- The constant `willGrow` of line 171. -/
def willGrow (g : Game) (c : Vec) : Bool :=
  decide (c.x = g.food.x) && decide (c.y = g.food.y)

/-- The constant `hitsTail` of line 174, with `tailNow = snake[0]` of line 172. -/
def hitsTail (g : Game) (c : Vec) : Bool :=
  match g.snake.head? with
  | none => false
  | some tailNow => decide (tailNow.x = c.x) && decide (tailNow.y = c.y)

/-- The self-collision test of lines 173-178: the candidate is occupied and the move is
not the permitted move into the tail cell on a step that does not grow. -/
def blocked (g : Game) (c : Vec) : Bool :=
  setHas (key c.x c.y) g.occupy && !(hitsTail g c && !willGrow g c)

/-- Lines 181-183: the new head is pushed and its key added. -/
def pushHead (g : Game) (c : Vec) : Game :=
  { g with snake := g.snake ++ [c], occupy := setAdd (key c.x c.y) g.occupy }

/-- Lines 187-193: ten points, and the high score follows the score when exceeded. -/
def addScore (g : Game) : Game :=
  let g1 := { g with score := g.score + 10 }
  if g1.score > g1.highScore then { g1 with highScore := g1.score } else g1

/-- The method `step` (lines 157-202). -/
def step (g0 : Game) : Except Fault Game :=
  let g := entered g0
  match g.snake.getLast? with
  | none => Except.error Fault.typeError
  | some head =>
    let c := candidate g head
    if offGrid c then Except.ok (gameOver g)
    else if blocked g c then Except.ok (gameOver g)
    else
      let g1 := pushHead g c
      if willGrow g c then Except.ok (placeFood (addScore g1))
      else
        match g1.snake with
        | [] => Except.error Fault.typeError
        | tail :: rest =>
          Except.ok { g1 with snake := rest, occupy := setDelete (key tail.x tail.y) g1.occupy }

/-- The `while` loop of `tick` (lines 151-154), on fuel: one unit per iteration.  The
difference is taken exactly; `tickLoopDouble` rounds it as the source does. -/
def tickLoop : Nat → Game → Except Fault Game
  | fuel, g =>
    if g.acc ≥ g.interval then
      match fuel with
      | 0 => Except.error Fault.fuel
      | n + 1 =>
        match step g with
        | Except.error e => Except.error e
        | Except.ok g1 => tickLoop n { g1 with acc := g1.acc - g1.interval }
    else Except.ok g

/-- The method `tick` (lines 148-155) with the sum taken exactly, which is what the source
computes whenever its operations do not round; `tickDouble` rounds as the source does. -/
def tick (fuel : Nat) (dt : ℚ) (g : Game) : Except Fault Game :=
  if g.state ≠ State.Running then Except.ok g
  else tickLoop fuel { g with acc := g.acc + dt }

/-- The externally invocable mutators and the periodic `tick`. -/
inductive Op where
  | start
  | pause
  | toggle
  | restart
  | setDirection (d : Vec)
  | setSpeed (v : ℚ)
  | tick (dt : ℚ)

/-- Runs one operation; `fuel` bounds the loop of a `tick`. -/
def Op.run (fuel : Nat) : Op → Game → Except Fault Game
  | Op.start, g => Except.ok (SnakeGame.start g)
  | Op.pause, g => Except.ok (SnakeGame.pause g)
  | Op.toggle, g => Except.ok (SnakeGame.toggle g)
  | Op.restart, g => Except.ok (SnakeGame.restart g)
  | Op.setDirection d, g => Except.ok (SnakeGame.setDirection d g)
  | Op.setSpeed v, g => Except.ok (SnakeGame.setSpeed v g)
  | Op.tick dt, g => SnakeGame.tick fuel dt g

/-- Runs a sequence of operations from left to right. -/
def runOps (fuel : Nat) : List Op → Game → Except Fault Game
  | [], g => Except.ok g
  | op :: ops, g =>
    match op.run fuel g with
    | Except.error e => Except.error e
    | Except.ok g1 => runOps fuel ops g1

/-- The four unit directions of the input map `DIR` (lines 427-431). -/
def unitDirs : List Vec :=
  [{ x := 0, y := -1 }, { x := 0, y := 1 }, { x := -1, y := 0 }, { x := 1, y := 0 }]

/-- Operations as the control surface issues them: directions are unit vectors and
speeds are positive. -/
def Op.Allowed : Op → Prop
  | Op.setDirection d => d ∈ unitDirs
  | Op.setSpeed v => 0 < v
  | _ => True

/-- States reachable from the constructor by allowed operations that return. -/
inductive Reachable : Game → Prop where
  | construct (speed : ℚ) (highScore : Int) (rand : Nat → ℚ) (h : 0 < speed) :
      Reachable (construct speed highScore rand)
  | op (fuel : Nat) (o : Op) (g g1 : Game) (hg : Reachable g) (ho : o.Allowed)
      (hr : o.run fuel g = Except.ok g1) : Reachable g1

/-- Random stream that yields the listed values and then zero. -/
def streamOf (l : List ℚ) : Nat → ℚ := fun n => l.getD n 0

/-- The invariant `Occupancy == set(Snake)`: a key is in the occupancy set exactly when
its cell is a cell of the snake. -/
def OccupancySynced (g : Game) : Prop :=
  ∀ x y : Int, key x y ∈ g.occupy ↔ Vec.mk x y ∈ g.snake

/-- The observable part of a result: snake, occupancy, phase, score and recorded calls. -/
def view : Except Fault Game → Option (List Vec × List (Int × Int) × State × Int × List Call)
  | Except.ok g => some (g.snake, g.occupy, g.state, g.score, g.calls)
  | Except.error _ => none

/-- Input sequence that curls the fresh snake into a 2x2 block and moves the head into
the tail cell. -/
def tailChaseOps : List Op :=
  [Op.start, Op.setDirection ⟨0, -1⟩, Op.tick 100, Op.setDirection ⟨-1, 0⟩, Op.tick 100,
   Op.setDirection ⟨0, 1⟩, Op.tick 100]

/-- Input sequence that eats two foods, circles a 2x3 block five times head-into-tail and
then turns across the block. -/
def crossingOps : List Op :=
  [Op.start, Op.tick 200, Op.setDirection ⟨0, -1⟩, Op.tick 100, Op.setDirection ⟨-1, 0⟩,
   Op.tick 200, Op.setDirection ⟨0, 1⟩, Op.tick 100, Op.setDirection ⟨1, 0⟩, Op.tick 200,
   Op.setDirection ⟨0, -1⟩, Op.tick 100, Op.setDirection ⟨-1, 0⟩, Op.tick 100,
   Op.setDirection ⟨0, 1⟩, Op.tick 100]

/-- Random stream that puts the first food on (6,10), the second on (7,10) and every
later one on (0,0). -/
def twoFoodsAhead : Nat → ℚ := streamOf [2 / 7, 10 / 21, 1 / 3, 10 / 21]

/-- Random stream that puts the first food on (6,10) and every later one on (0,0). -/
def oneFoodAhead : Nat → ℚ := streamOf [2 / 7, 10 / 21]

/-- Number of `step()` calls recorded so far. -/
def stepCount (g : Game) : Nat :=
  g.calls.countP (fun c => match c with | Call.step _ => true | _ => false)


/-- The state after the constructor (speed 10, food on (0,0)) and `start()`. -/
def freshRunning : Game := start (construct 10 0 (streamOf []))

/-- The state after the constructor (speed 10, first food on (6,10)) and `start()`. -/
def foodAhead : Game := start (construct 10 0 oneFoodAhead)

/-- Whether the step taken from `g` finds the food on its candidate head. -/
def eats (g : Game) : Bool :=
  match g.snake.getLast? with
  | none => false
  | some head => willGrow (entered g) (candidate (entered g) head)

/-- `Survives g n g1`: `g1` follows from `g` by a sequence of `step()` calls, none of which
ends in phase `Over`, exactly `n` of which eat food. -/
inductive Survives : Game → Nat → Game → Prop where
  | refl (g : Game) : Survives g 0 g
  | move (g g1 g2 : Game) (n : Nat) (hrun : Survives g n g1) (hstep : step g1 = Except.ok g2)
      (hlive : g2.state ≠ State.Over) (hfood : eats g1 = false) : Survives g n g2
  | eat (g g1 g2 : Game) (n : Nat) (hrun : Survives g n g1) (hstep : step g1 = Except.ok g2)
      (hlive : g2.state ≠ State.Over) (hfood : eats g1 = true) : Survives g (n + 1) g2

/-- The state the constructor leaves (speed 10) when the first food falls on (6,10). -/
def freshFoodAhead : Game := construct 10 0 oneFoodAhead

/-- Operations that do not run `init`: `tick`, `setDirection`, `setSpeed` and `pause`. -/
def Op.keepsEpisode : Op → Prop
  | Op.tick _ => True
  | Op.setDirection _ => True
  | Op.setSpeed _ => True
  | Op.pause => True
  | _ => False

/-- A Running state with the head on the right border, heading right, and score 10. -/
def atRightWall : Game :=
  { state := State.Running, speed := 10, interval := 100, acc := 0,
    snake := [⟨16, 10⟩, ⟨17, 10⟩, ⟨18, 10⟩, ⟨19, 10⟩, ⟨20, 10⟩],
    dir := ⟨1, 0⟩, nextDir := ⟨1, 0⟩,
    occupy := [(16, 10), (17, 10), (18, 10), (19, 10), (20, 10)],
    food := ⟨0, 0⟩, score := 10, highScore := 10, rand := streamOf [], calls := [] }

/-- The state `atRightWall` after the game ended. -/
def afterRightWall : Game := { atRightWall with state := State.Over }

/-- A Running state with the snake curled into a 2x2 block: the head on (4,9) is about to
turn down into the tail cell (4,10). -/
def curled : Game :=
  { state := State.Running, speed := 10, interval := 100, acc := 0,
    snake := [⟨4, 10⟩, ⟨5, 10⟩, ⟨5, 9⟩, ⟨4, 9⟩],
    dir := ⟨-1, 0⟩, nextDir := ⟨0, 1⟩,
    occupy := [(4, 10), (5, 10), (5, 9), (4, 9)],
    food := ⟨0, 0⟩, score := 0, highScore := 0, rand := streamOf [], calls := [] }

/-- The state `curled` with the food on the tail cell. -/
def curledFoodOnTail : Game := { curled with food := ⟨4, 10⟩ }

/-- The state `curled` with the pending turn up instead of down, and the cell above the
head occupied by a further body cell. -/
def curledBodyAbove : Game :=
  { curled with
    snake := [⟨4, 10⟩, ⟨5, 10⟩, ⟨5, 9⟩, ⟨5, 8⟩, ⟨4, 8⟩, ⟨3, 8⟩, ⟨3, 9⟩, ⟨4, 9⟩],
    dir := ⟨1, 0⟩, nextDir := ⟨0, -1⟩,
    occupy := [(4, 10), (5, 10), (5, 9), (5, 8), (4, 8), (3, 8), (3, 9), (4, 9)] }

/-- The fresh Running game after `setDirection` queued a turn up: the current direction is
(1,0) and the pending direction (0,-1). -/
def queuedUp : Game := setDirection ⟨0, -1⟩ freshRunning

/-- The direction fields of a result: current and pending direction. -/
def dirsOf : Except Fault Game → Option (Vec × Vec)
  | Except.ok g => some (g.dir, g.nextDir)
  | Except.error _ => none

/-- The cell drawn by the `i`-th iteration of the loop of `placeFood` (counting from 0) when
the loop starts on the random stream `rand`: two calls of `randInt(0, GRID - 1)`. -/
def sampledCell (rand : Nat → ℚ) (i : Nat) : Vec :=
  { x := randInt (rand (2 * i)) 0 (GRID - 1), y := randInt (rand (2 * i + 1)) 0 (GRID - 1) }

/-- A Running state whose snake lies in the corner (0,0) and whose random stream is
constantly zero, so that every sampled cell is (0,0). -/
def cornerTaken : Game :=
  { state := State.Running, speed := 10, interval := 100, acc := 0,
    snake := [⟨0, 0⟩, ⟨1, 0⟩, ⟨2, 0⟩, ⟨3, 0⟩],
    dir := ⟨1, 0⟩, nextDir := ⟨1, 0⟩,
    occupy := [(0, 0), (1, 0), (2, 0), (3, 0)],
    food := ⟨4, 0⟩, score := 0, highScore := 0, rand := streamOf [], calls := [] }

/-- Input sequence with a stalled frame: `start()` and one `tick` of seventeen intervals. -/
def stallOps : List Op := [Op.start, Op.tick 1700]

/-- Input sequence with a stalled frame on a fresh game: `start()` and one `tick` of
seventeen intervals, enough to reach the right wall and one step more. -/
def overrunOps : List Op := [Op.start, Op.tick 1700]

/-- A record `{ score, time }` of the Records store (lines 476-483). -/
structure Record where
  score : Int
  time : Int
  deriving DecidableEq, Repr

/-- Number of records kept, `const RECORDS_LIMIT = 10`. -/
def RECORDS_LIMIT : Nat := 10

/-- What `JSON.parse` makes of a non-empty stored text: it throws, or it returns an array of
records, or it returns a value that is not an array (a number, a string, a boolean, `null`
or an object).  Arrays with elements that are not records are not represented. -/
inductive Parsed where
  | syntaxError
  | array (l : List Record)
  | notArray
  deriving DecidableEq, Repr

/-- What `localStorage.getItem(RECORDS_KEY)` finds: no entry (`null`), the empty string, or a
non-empty text, given by what `JSON.parse` makes of it. -/
inductive Stored where
  | missing
  | empty
  | text (p : Parsed)
  deriving DecidableEq, Repr

/-- The value returned by `loadRecords`: a list of records or a value that is not an array. -/
inductive Loaded where
  | list (l : List Record)
  | other
  deriving DecidableEq, Repr

/-- The function `loadRecords` (lines 463-468): a falsy `raw` gives `[]`, an exception of
`JSON.parse` is caught and gives `[]`, and any parsed value is returned as it is. -/
def loadRecords : Stored → Loaded
  | Stored.missing => Loaded.list []
  | Stored.empty => Loaded.list []
  | Stored.text Parsed.syntaxError => Loaded.list []
  | Stored.text (Parsed.array l) => Loaded.list l
  | Stored.text Parsed.notArray => Loaded.other

/-- The comparator of line 479, `(b.score - a.score) || (a.time - b.time)`. -/
def compareRecords (a b : Record) : Int :=
  if b.score - a.score ≠ 0 then b.score - a.score else a.time - b.time

/-- The comparator places `a` no later than `b`: its value is not positive. -/
def placedBefore (a b : Record) : Prop := compareRecords a b ≤ 0

instance instDecidablePlacedBefore (a b : Record) : Decidable (placedBefore a b) := by
  unfold placedBefore; infer_instance

/-- The call `list.sort(comparator)` of line 479: a stable sort by the comparator. -/
def sortRecords (l : List Record) : List Record := l.insertionSort placedBefore

/-- The function `updateRecords` (lines 476-483) for the score `score` at the time `now`
returned by `Date.now()`; the result is the list handed to `saveRecords`.  The call
`list.push` throws a `TypeError` when `loadRecords` returned a value that is not an array. -/
def updateRecords (stored : Stored) (score now : Int) : Except Fault (List Record) :=
  match loadRecords stored with
  | Loaded.other => Except.error Fault.typeError
  | Loaded.list l =>
    let l1 := l ++ [{ score := score, time := now }]
    let l2 := sortRecords l1
    Except.ok (if l2.length > RECORDS_LIMIT then l2.take RECORDS_LIMIT else l2)

/-- The order of the specification: higher score first, and among equal scores the earlier
time first. -/
def ranksBefore (a b : Record) : Prop :=
  b.score < a.score ∨ (b.score = a.score ∧ a.time ≤ b.time)

/-- What `localStorage.getItem(STORAGE_KEY)` finds for the high score: no entry, the empty
string, a numeral, or a text that `Number` does not read as a number. -/
inductive StoredNumber where
  | missing
  | empty
  | numeral (n : Int)
  | garbage
  deriving DecidableEq, Repr

/-- A JavaScript number as far as the high score is concerned: an integer or `NaN`. -/
inductive JsNumber where
  | num (n : Int)
  | nan
  deriving DecidableEq, Repr

/-- The expression `Number(localStorage.getItem(STORAGE_KEY) || 0)` of line 59: a falsy
stored value is replaced by `0`, any other text goes through `Number`. -/
def readHighScore : StoredNumber → JsNumber
  | StoredNumber.missing => JsNumber.num 0
  | StoredNumber.empty => JsNumber.num 0
  | StoredNumber.numeral n => JsNumber.num n
  | StoredNumber.garbage => JsNumber.nan

/-- An ended game with half an interval left in the accumulator. -/
def overWithRemainder : Game := { afterRightWall with acc := 50 }

/-- Two cells one unit step apart along one axis: the difference is a unit direction. -/
def adjacent (a b : Vec) : Prop := Vec.mk (b.x - a.x) (b.y - a.y) ∈ unitDirs

instance instDecidableAdjacent (a b : Vec) : Decidable (adjacent a b) := by
  unfold adjacent; infer_instance

/-- Every two consecutive cells of the list are adjacent. -/
def Linked : List Vec → Prop
  | [] => True
  | [_] => True
  | a :: b :: rest => adjacent a b ∧ Linked (b :: rest)

/-- The snake is a path on the board and the two directions are unit vectors, the pending
one not the opposite of the current one. -/
def WellFormed (g : Game) : Prop :=
  g.dir ∈ unitDirs ∧ g.nextDir ∈ unitDirs ∧ isOpposite g.dir g.nextDir = false ∧
    g.snake ≠ [] ∧ (∀ c ∈ g.snake, ¬ offGrid c) ∧ Linked g.snake

/-- The state the constructor leaves with speed 10 and the food on (0,0). -/
def freshReady : Game := construct 10 0 (streamOf [])

/-- Writes the accumulator of a returned state. -/
def withAcc (x : ℚ) : Except Fault Game → Except Fault Game
  | Except.ok g => Except.ok { g with acc := x }
  | Except.error e => Except.error e

/-- The result of `n` consecutive calls of `step`. -/
def stepN : Nat → Game → Except Fault Game
  | 0, g => Except.ok g
  | n + 1, g =>
    match step g with
    | Except.error e => Except.error e
    | Except.ok g1 => stepN n g1

/-- The nearest natural number to `n / d`, a tie going to the even neighbour. -/
def roundHalfEven (n d : Nat) : Nat :=
  let q := n / d
  let r := n % d
  if 2 * r < d then q
  else if d < 2 * r then q + 1
  else if q % 2 = 0 then q else q + 1

/-- Binary logarithm by halving, on fuel: `fuel` halvings are enough when `n ≤ 2 ^ fuel`. -/
def floorLog2Fuel : Nat → Nat → Nat
  | 0, _ => 0
  | fuel + 1, n => if n < 2 then 0 else floorLog2Fuel fuel (n / 2) + 1

/-- The binary logarithm of a positive natural number, rounded down. -/
def floorLog2 (n : Nat) : Nat := floorLog2Fuel n n

/-- The binary exponent of `n / d` for positive `n` and `d`: the integer `e` with
`2 ^ e ≤ n / d < 2 ^ (e + 1)`. -/
def binaryExponent (n d : Nat) : Int :=
  let e0 : Int := (floorLog2 n : Int) - (floorLog2 d : Int)
  if d * 2 ^ floorLog2 n ≤ n * 2 ^ floorLog2 d then e0 else e0 - 1

/-- The IEEE 754 binary64 number nearest to `n / d` for positive `n` and `d`: the value is
rounded to a multiple of `2 ^ (e - 52)`, where `e` is its binary exponent and at least
`-1022` (below that the numbers are subnormal), a tie going to the even significand. -/
def roundPositive (n d : Nat) : ℚ :=
  let p : Int := max (binaryExponent n d) (-1022) - 52
  if 0 ≤ p then ((roundHalfEven n (d * 2 ^ p.toNat) * 2 ^ p.toNat : Nat) : ℚ)
  else ((roundHalfEven (n * 2 ^ (-p).toNat) d : Nat) : ℚ) / ((2 ^ (-p).toNat : Nat) : ℚ)

/-- The value a JavaScript number takes for the exact result `x` of an arithmetic operation:
IEEE 754 binary64, round to nearest, ties to even.  Results of magnitude `2 ^ 1024` and
more, where the source yields `Infinity`, are outside the embedding (see `Exact`). -/
def roundDouble (x : ℚ) : ℚ :=
  if x = 0 then 0
  else if x < 0 then -roundPositive x.num.natAbs x.den
  else roundPositive x.num.natAbs x.den

/-- The bound `2 ^ 1024` of the finite binary64 numbers. -/
def doubleRange : ℚ := ((2 ^ 1024 : Nat) : ℚ)

/-- The result `x` of an operation is a finite binary64 number: the operation does not
round. -/
def Exact (x : ℚ) : Prop := roundDouble x = x ∧ -doubleRange < x ∧ x < doubleRange

instance instDecidableExact (x : ℚ) : Decidable (Exact x) := by
  unfold Exact; infer_instance

/-- The first `n` subtractions of `interval` from the accumulator `acc` do not round. -/
def ExactRun (acc interval : ℚ) (n : Nat) : Prop :=
  ∀ k, k < n → Exact (acc - (k : ℚ) * interval - interval)

instance instDecidableExactRun (acc interval : ℚ) (n : Nat) :
    Decidable (ExactRun acc interval n) := by
  unfold ExactRun; infer_instance

/-- No operation of `tick(dt)` on the state `g` rounds: neither the addition of `dt` nor
the subtractions of the interval that the sum owes. -/
def TickExact (g : Game) (dt : ℚ) : Prop :=
  Exact (g.acc + dt) ∧ ExactRun (g.acc + dt) g.interval ⌊(g.acc + dt) / g.interval⌋₊

instance instDecidableTickExact (g : Game) (dt : ℚ) : Decidable (TickExact g dt) := by
  unfold TickExact; infer_instance

/-- The method `setSpeed` (lines 98-101) in binary64 arithmetic: the quotient is rounded. -/
def setSpeedDouble (v : ℚ) (g : Game) : Game :=
  { g with speed := v, interval := roundDouble (1000 / v) }

/-- The `while` loop of `tick` (lines 151-154) in binary64 arithmetic, on fuel: the
difference `acc - interval` is rounded. -/
def tickLoopDouble : Nat → Game → Except Fault Game
  | fuel, g =>
    if g.acc ≥ g.interval then
      match fuel with
      | 0 => Except.error Fault.fuel
      | n + 1 =>
        match step g with
        | Except.error e => Except.error e
        | Except.ok g1 => tickLoopDouble n { g1 with acc := roundDouble (g1.acc - g1.interval) }
    else Except.ok g

/-- The method `tick` (lines 148-155) in binary64 arithmetic: the sum `acc + dt` is
rounded. -/
def tickDouble (fuel : Nat) (dt : ℚ) (g : Game) : Except Fault Game :=
  if g.state ≠ State.Running then Except.ok g
  else tickLoopDouble fuel { g with acc := roundDouble (g.acc + dt) }

/-- Two calls of `tick` in a row, in binary64 arithmetic. -/
def tickTwiceDouble (fuel : Nat) (dt1 dt2 : ℚ) (g : Game) : Except Fault Game :=
  match tickDouble fuel dt1 g with
  | Except.error e => Except.error e
  | Except.ok g1 => tickDouble fuel dt2 g1

/-- The timing part of a result: phase, number of recorded steps, accumulator, interval and
snake. -/
def timing : Except Fault Game → Option (State × Nat × ℚ × ℚ × List Vec)
  | Except.ok g => some (g.state, stepCount g, g.acc, g.interval, g.snake)
  | Except.error _ => none

/-- The fresh Running game after `setSpeed(3)`: the interval is the binary64 number nearest
to `1000 / 3`, which lies below it. -/
def speedThree : Game := setSpeedDouble 3 freshRunning

/-- The fresh Running game after `setSpeed(7)`: the interval is the binary64 number nearest
to `1000 / 7`, which lies above it. -/
def speedSeven : Game := setSpeedDouble 7 freshRunning

/-- The fresh Running game after `setSpeed(15)`. -/
def speedFifteen : Game := setSpeedDouble 15 freshRunning

/-! ## Theorems -/

/-- Every state the control surface reaches from a reachable state is reachable. -/
theorem reachable_runOps (fuel : Nat) (ops : List Op) :
    ∀ g g1 : Game, Reachable g → (∀ o ∈ ops, o.Allowed) →
      runOps fuel ops g = Except.ok g1 → Reachable g1 := by
  induction ops with
  | nil =>
    intro g g1 hg _ hr
    simp only [runOps, Except.ok.injEq] at hr
    exact hr ▸ hg
  | cons o ops ih =>
    intro g g1 hg hall hr
    simp only [runOps] at hr
    cases hstep : o.run fuel g with
    | error e => rw [hstep] at hr; cases hr
    | ok g2 =>
      rw [hstep] at hr
      exact ih g2 g1 (Reachable.op fuel o g g2 hg (hall o (List.mem_cons_self _ _)) hstep)
        (fun o1 ho1 => hall o1 (List.mem_cons_of_mem _ ho1)) hr

/-- C1 (code defect): the invariant Occupancy == set(Snake) is lost by a step that moves
the head into the tail cell.  From the constructor, start, three turns and three ticks of
one interval reach a state whose occupancy set misses the head cell (4,10). -/
theorem tail_chase_desyncs_occupancy :
    ∃ g : Game, Reachable g ∧
      runOps 1 tailChaseOps (construct 10 0 (streamOf [])) = Except.ok g ∧
      g.snake = [⟨5, 10⟩, ⟨5, 9⟩, ⟨4, 9⟩, ⟨4, 10⟩] ∧
      g.occupy = [(5, 10), (5, 9), (4, 9)] ∧ ¬ OccupancySynced g := by
  have hv : view (runOps 1 tailChaseOps (construct 10 0 (streamOf []))) =
      some ([⟨5, 10⟩, ⟨5, 9⟩, ⟨4, 9⟩, ⟨4, 10⟩], [(5, 10), (5, 9), (4, 9)], State.Running, 0,
        [Call.step State.Running, Call.step State.Running, Call.step State.Running]) := by
    decide!
  cases hr : runOps 1 tailChaseOps (construct 10 0 (streamOf [])) with
  | error e => rw [hr] at hv; simp [view] at hv
  | ok g =>
    rw [hr] at hv
    simp only [view, Option.some.injEq, Prod.mk.injEq] at hv
    refine ⟨g, ?_, rfl, hv.1, hv.2.1, ?_⟩
    · exact reachable_runOps 1 tailChaseOps _ g (Reachable.construct 10 0 _ (by norm_num))
        (by simp [tailChaseOps, Op.Allowed, unitDirs]) hr
    · intro hsync
      have h := (hsync 4 10).2 (by rw [hv.1]; simp)
      rw [hv.2.1] at h
      simp [key] at h

/-- C2 (code defect): a step can return a snake with a repeated cell.  After two foods the
snake circles a 2x3 block head-into-tail, which empties the occupancy set of the cells it
re-enters, and the turn across the block then enters the snake cell (6,10) unnoticed. -/
theorem crossing_duplicates_cell :
    ∃ g : Game, Reachable g ∧
      runOps 2 crossingOps (construct 10 0 twoFoodsAhead) = Except.ok g ∧
      g.snake = [⟨5, 10⟩, ⟨6, 10⟩, ⟨7, 10⟩, ⟨7, 9⟩, ⟨6, 9⟩, ⟨6, 10⟩] ∧
      g.state = State.Running ∧ ¬ g.snake.Nodup := by
  have hv : (view (runOps 2 crossingOps (construct 10 0 twoFoodsAhead))).map
      (fun v => (v.1, v.2.2.1)) =
      some ([⟨5, 10⟩, ⟨6, 10⟩, ⟨7, 10⟩, ⟨7, 9⟩, ⟨6, 9⟩, ⟨6, 10⟩], State.Running) := by
    decide!
  cases hr : runOps 2 crossingOps (construct 10 0 twoFoodsAhead) with
  | error e => rw [hr] at hv; simp [view] at hv
  | ok g =>
    rw [hr] at hv
    simp only [view, Option.map_some', Option.some.injEq, Prod.mk.injEq] at hv
    refine ⟨g, ?_, rfl, hv.1, hv.2, ?_⟩
    · exact reachable_runOps 2 crossingOps _ g (Reachable.construct 10 0 _ (by norm_num))
        (by simp [crossingOps, Op.Allowed, unitDirs]) hr
    · rw [hv.1]; decide

/-- The loop of `placeFood` changes only the food and the random stream. -/
theorem placeFoodLoop_frame (k : Nat) :
    ∀ g : Game, ∃ f r, placeFoodLoop k g = { g with food := f, rand := r } := by
  induction k with
  | zero =>
    intro g
    exact ⟨_, _, rfl⟩
  | succ k ih =>
    intro g
    unfold placeFoodLoop
    simp only [random]
    split
    · obtain ⟨f, r, h⟩ := ih { g with
        food := { x := randInt (g.rand 0) 0 (GRID - 1),
                  y := randInt (g.rand (0 + 1)) 0 (GRID - 1) },
        rand := fun n => g.rand (n + 1 + 1) }
      exact ⟨f, r, by rw [h]⟩
    · exact ⟨_, _, rfl⟩

/-- The method `placeFood` changes only the food and the random stream. -/
theorem placeFood_frame (g : Game) : ∃ f r, placeFood g = { g with food := f, rand := r } :=
  placeFoodLoop_frame 1000 g

/-- The start of `step` changes only the current direction and the call record. -/
theorem entered_eq (g0 : Game) :
    entered g0 = { g0 with
      dir := (if isOpposite g0.dir g0.nextDir then g0.dir else g0.nextDir),
      calls := g0.calls ++ [Call.step g0.state] } := by
  unfold entered commitDir
  by_cases h : isOpposite g0.dir g0.nextDir = true <;> simp [h]

/-- The four outcomes of `step` on a snake `t :: r` whose last cell is `head`. -/
theorem step_eq (g0 : Game) (t head : Vec) (r : List Vec) (hs : g0.snake = t :: r)
    (hh : g0.snake.getLast? = some head) :
    step g0 =
      if offGrid (candidate (entered g0) head) ∨
          blocked (entered g0) (candidate (entered g0) head) = true then
        Except.ok (gameOver (entered g0))
      else if willGrow (entered g0) (candidate (entered g0) head) = true then
        Except.ok (placeFood (addScore (pushHead (entered g0) (candidate (entered g0) head))))
      else
        Except.ok { entered g0 with
          snake := r ++ [candidate (entered g0) head],
          occupy := setDelete (key t.x t.y)
            (setAdd (key (candidate (entered g0) head).x (candidate (entered g0) head).y)
              (entered g0).occupy) } := by
  have hsn : (entered g0).snake = t :: r := by rw [entered_eq]; exact hs
  have hl : (entered g0).snake.getLast? = some head := by rw [entered_eq]; exact hh
  unfold step
  simp only [hl]
  generalize entered g0 = g at *
  by_cases h1 : offGrid (candidate g head)
  · simp [h1]
  · by_cases h2 : blocked g (candidate g head) = true
    · simp [h1, h2]
    · by_cases h3 : willGrow g (candidate g head) = true
      · simp [h1, h2, h3]
      · simp [h1, h2, h3, pushHead, hsn]

/-- A snake with a last cell is a non-empty list. -/
theorem exists_cons_of_getLast? (l : List Vec) (head : Vec) (h : l.getLast? = some head) :
    ∃ t r, l = t :: r := by
  cases l with
  | nil => simp at h
  | cons t r => exact ⟨t, r, rfl⟩

/-- The method `gameOver` changes only the phase and the call record. -/
theorem gameOver_eq (g : Game) :
    gameOver g = { g with
      state := State.Over,
      calls := (if g.score > 0 then g.calls ++ [Call.updateRecords g.score] else g.calls) } := by
  unfold gameOver
  by_cases h : g.score > 0 <;> simp [h]

/-- Eating changes only the score and the high score. -/
theorem addScore_eq (g : Game) :
    addScore g = { g with
      score := g.score + 10,
      highScore := (if g.score + 10 > g.highScore then g.score + 10 else g.highScore) } := by
  unfold addScore
  by_cases h : g.score + 10 > g.highScore <;> simp [h]

/-- On a non-empty snake `step` returns, leaves the timing fields alone, keeps the snake
non-empty and records exactly one `step()` call. -/
theorem step_frame (g0 : Game) (hne : g0.snake ≠ []) :
    ∃ g1, step g0 = Except.ok g1 ∧ g1.acc = g0.acc ∧ g1.interval = g0.interval ∧
      g1.snake ≠ [] ∧ stepCount g1 = stepCount g0 + 1 := by
  obtain ⟨t, r, hs⟩ := List.exists_cons_of_ne_nil hne
  have hh : g0.snake.getLast? = some (g0.snake.getLast hne) := List.getLast?_eq_getLast _ hne
  rw [step_eq g0 t (g0.snake.getLast hne) r hs hh]
  split_ifs with h1 h2
  · refine ⟨_, rfl, ?_⟩
    rw [gameOver_eq, entered_eq]
    refine ⟨rfl, rfl, by simpa using hne, ?_⟩
    by_cases hsc : g0.score > 0 <;> simp [stepCount, hsc, List.countP_append]
  · obtain ⟨f, rd, hp⟩ := placeFood_frame (addScore (pushHead (entered g0)
      (candidate (entered g0) (g0.snake.getLast hne))))
    refine ⟨_, rfl, ?_⟩
    rw [hp, addScore_eq, entered_eq]
    refine ⟨rfl, rfl, by simp [pushHead], ?_⟩
    simp [stepCount, pushHead, List.countP_append]
  · refine ⟨_, rfl, ?_⟩
    rw [entered_eq]
    refine ⟨rfl, rfl, by simp, ?_⟩
    simp [stepCount, List.countP_append]

/-- The loop of `tick` on an accumulator in `[n * interval, (n + 1) * interval)`: with fuel for
`n` iterations it returns after exactly `n` steps. -/
theorem tickLoop_spec (n : Nat) :
    ∀ (fuel : Nat) (g : Game), n ≤ fuel → 0 < g.interval → (n : ℚ) * g.interval ≤ g.acc →
      g.acc < ((n : ℚ) + 1) * g.interval → g.snake ≠ [] →
      ∃ g1, tickLoop fuel g = Except.ok g1 ∧ g1.acc = g.acc - (n : ℚ) * g.interval ∧
        g1.interval = g.interval ∧ stepCount g1 = stepCount g + n := by
  induction n with
  | zero =>
    intro fuel g _ _ _ hlt _
    refine ⟨g, ?_, by simp, rfl, rfl⟩
    have hno : ¬ g.acc ≥ g.interval := by
      simp only [Nat.cast_zero, zero_add, one_mul] at hlt
      exact not_le.mpr hlt
    unfold tickLoop
    simp [hno]
  | succ n ih =>
    intro fuel g hfuel hI hle hlt hne
    obtain ⟨m, rfl⟩ : ∃ m, fuel = m + 1 := ⟨fuel - 1, by omega⟩
    have hge : g.acc ≥ g.interval := by
      have h0 : (0 : ℚ) ≤ (n : ℚ) * g.interval := mul_nonneg (Nat.cast_nonneg n) hI.le
      push_cast at hle
      linarith
    obtain ⟨g1, hstep, hacc, hint, hne1, hcnt⟩ := step_frame g hne
    obtain ⟨g2, hloop, hacc2, hint2, hcnt2⟩ :=
      ih m { g1 with acc := g1.acc - g1.interval } (by omega)
        (by simpa [hint] using hI)
        (by simp only [hacc, hint]; push_cast at hle; linarith)
        (by simp only [hacc, hint]; push_cast at hlt; linarith)
        (by simpa using hne1)
    refine ⟨g2, ?_, ?_, ?_, ?_⟩
    · rw [tickLoop]
      simp only [hge, if_true, hstep]
      exact hloop
    · rw [hacc2]; simp only [hacc, hint]; push_cast; ring
    · rw [hint2]; exact hint
    · rw [hcnt2]
      have : stepCount { g1 with acc := g1.acc - g1.interval } = stepCount g1 := rfl
      rw [this, hcnt]; omega


/-- The catch-up loop in exact arithmetic: in a Running state with a positive interval, a
non-negative accumulator and a non-negative elapsed time, the exact `tick` returns as soon
as the fuel covers `n = floor((acc + dt) / interval)` iterations, calls `step()` exactly `n`
times and leaves `acc + dt - n * interval` in the accumulator, which lies in
`[0, interval)`; with `acc = 0` and `dt = 2.5 * interval` that is two steps and half an
interval.  In any other phase `tick` returns the state unchanged. -/
theorem tick_runs_floor_steps (g : Game) (dt : ℚ) (fuel : Nat) :
    (g.state = State.Running → 0 < g.interval → 0 ≤ g.acc → 0 ≤ dt → g.snake ≠ [] →
      ⌊(g.acc + dt) / g.interval⌋₊ ≤ fuel →
      ∃ g1, tick fuel dt g = Except.ok g1 ∧
        stepCount g1 = stepCount g + ⌊(g.acc + dt) / g.interval⌋₊ ∧
        g1.acc = (g.acc + dt) - (⌊(g.acc + dt) / g.interval⌋₊ : ℚ) * g.interval ∧
        0 ≤ g1.acc ∧ g1.acc < g.interval ∧
        (g.acc = 0 → dt = 5 / 2 * g.interval →
          stepCount g1 = stepCount g + 2 ∧ g1.acc = 1 / 2 * g.interval)) ∧
    (g.state ≠ State.Running → tick fuel dt g = Except.ok g) := by
  constructor
  · intro hrun hI ha hdt hne hfuel
    have hx : 0 ≤ (g.acc + dt) / g.interval := div_nonneg (add_nonneg ha hdt) hI.le
    have hlo : (⌊(g.acc + dt) / g.interval⌋₊ : ℚ) * g.interval ≤ g.acc + dt :=
      (le_div_iff₀ hI).1 (Nat.floor_le hx)
    have hhi : g.acc + dt < ((⌊(g.acc + dt) / g.interval⌋₊ : ℚ) + 1) * g.interval :=
      (div_lt_iff₀ hI).1 (Nat.lt_floor_add_one _)
    obtain ⟨g1, hloop, hacc, _, hcnt⟩ :=
      tickLoop_spec ⌊(g.acc + dt) / g.interval⌋₊ fuel { g with acc := g.acc + dt } hfuel hI
        hlo hhi hne
    refine ⟨g1, ?_, hcnt, hacc, ?_, ?_, ?_⟩
    · unfold tick
      rw [if_neg (not_not.mpr hrun)]
      exact hloop
    · rw [hacc]; simp only; linarith
    · rw [hacc]; simp only; linarith
    · intro h0 h25
      have hfl : ⌊(g.acc + dt) / g.interval⌋₊ = 2 := by
        rw [h0, h25, zero_add, mul_div_assoc, div_self hI.ne', mul_one]
        rw [Nat.floor_eq_iff (by norm_num)]
        constructor <;> norm_num
      refine ⟨by rw [hcnt, hfl]; rfl, ?_⟩
      rw [hacc, hfl]; simp only [h0, h25]; push_cast; ring
  · intro hrun
    unfold tick
    simp [hrun]

/-- The exact catch-up loop on the fresh Running game with 250 ms elapsed at interval 100. -/
theorem tick_runs_floor_steps_witness :
    (freshRunning.state = State.Running ∧ 0 < freshRunning.interval ∧ 0 ≤ freshRunning.acc ∧
      (0 : ℚ) ≤ 250 ∧ freshRunning.snake ≠ [] ∧
      ⌊(freshRunning.acc + 250) / freshRunning.interval⌋₊ ≤ 2) ∧
    ∃ g1, tick 2 250 freshRunning = Except.ok g1 ∧
      stepCount g1 =
        stepCount freshRunning + ⌊(freshRunning.acc + 250) / freshRunning.interval⌋₊ ∧
      g1.acc = (freshRunning.acc + 250) -
        (⌊(freshRunning.acc + 250) / freshRunning.interval⌋₊ : ℚ) * freshRunning.interval ∧
      0 ≤ g1.acc ∧ g1.acc < freshRunning.interval ∧
      (freshRunning.acc = 0 → (250 : ℚ) = 5 / 2 * freshRunning.interval →
        stepCount g1 = stepCount freshRunning + 2 ∧ g1.acc = 1 / 2 * freshRunning.interval) :=
  have h : freshRunning.state = State.Running ∧ 0 < freshRunning.interval ∧
      0 ≤ freshRunning.acc ∧
      (0 : ℚ) ≤ 250 ∧ freshRunning.snake ≠ [] ∧
      ⌊(freshRunning.acc + 250) / freshRunning.interval⌋₊ ≤ 2 := by decide!
  ⟨h, (tick_runs_floor_steps freshRunning 250 2).1 h.1 h.2.1 h.2.2.1 h.2.2.2.1 h.2.2.2.2.1
    h.2.2.2.2.2⟩

/-- The constant `willGrow` says that the candidate is the food cell. -/
theorem willGrow_iff (g : Game) (c : Vec) : willGrow g c = true ↔ c = g.food := by
  unfold willGrow
  rcases c with ⟨cx, cy⟩
  rcases hf : g.food with ⟨fx, fy⟩
  simp

/-- The start of `step` leaves the food alone. -/
theorem entered_food (g : Game) : (entered g).food = g.food := by rw [entered_eq]

/-- C4: when the candidate head `c` is inside the grid and passes the self-collision test,
`step` returns; if `c` is not the food cell the snake loses its first cell and gains `c` at
the end, with length, score and food unchanged; if `c` is the food cell the old snake gains
`c` (length + 1) and the score grows by 10.  This holds in every phase (Running included),
whether or not the occupancy set mirrors the snake. -/
theorem step_moves_or_grows (g : Game) (head : Vec) (hhead : g.snake.getLast? = some head)
    (hin : ¬ offGrid (candidate (entered g) head))
    (hfree : blocked (entered g) (candidate (entered g) head) = false) :
    (candidate (entered g) head ≠ g.food →
      ∃ g1, step g = Except.ok g1 ∧ g1.snake = g.snake.tail ++ [candidate (entered g) head] ∧
        g1.snake.length = g.snake.length ∧ g1.score = g.score ∧ g1.food = g.food ∧
        g1.state = g.state) ∧
    (candidate (entered g) head = g.food →
      ∃ g1, step g = Except.ok g1 ∧ g1.snake = g.snake ++ [candidate (entered g) head] ∧
        g1.snake.length = g.snake.length + 1 ∧ g1.score = g.score + 10 ∧
        g1.state = g.state) := by
  obtain ⟨t, r, hs⟩ := exists_cons_of_getLast? g.snake head hhead
  have hno : ¬ (offGrid (candidate (entered g) head) ∨
      blocked (entered g) (candidate (entered g) head) = true) := by
    rw [hfree]; simp [hin]
  have hstep := step_eq g t head r hs hhead
  rw [if_neg hno] at hstep
  constructor
  · intro hfood
    have hw : ¬ willGrow (entered g) (candidate (entered g) head) = true := by
      rw [willGrow_iff, entered_food]; exact hfood
    rw [if_neg hw] at hstep
    refine ⟨_, hstep, ?_⟩
    rw [entered_eq]
    simp [hs]
  · intro hfood
    have hw : willGrow (entered g) (candidate (entered g) head) = true := by
      rw [willGrow_iff, entered_food]; exact hfood
    rw [if_pos hw] at hstep
    obtain ⟨f, rd, hp⟩ := placeFood_frame (addScore (pushHead (entered g)
      (candidate (entered g) head)))
    refine ⟨_, hstep, ?_⟩
    rw [hp, addScore_eq, entered_eq]
    simp [pushHead]

/-- Witness of C4: the two scenarios of the specification, from the snake
(2,10),(3,10),(4,10),(5,10) heading (1,0): with the food on (0,0) the step yields
(3,10),(4,10),(5,10),(6,10) and score 0; with the food on (6,10) it yields
(2,10),(3,10),(4,10),(5,10),(6,10) and score 10. -/
theorem step_moves_or_grows_witness :
    (freshRunning.snake.getLast? = some ⟨5, 10⟩ ∧
      ¬ offGrid (candidate (entered freshRunning) ⟨5, 10⟩) ∧
      blocked (entered freshRunning) (candidate (entered freshRunning) ⟨5, 10⟩) = false ∧
      candidate (entered freshRunning) ⟨5, 10⟩ ≠ freshRunning.food ∧
      ∃ g1, step freshRunning = Except.ok g1 ∧
        g1.snake = [⟨3, 10⟩, ⟨4, 10⟩, ⟨5, 10⟩, ⟨6, 10⟩] ∧ g1.score = 0) ∧
    (foodAhead.snake.getLast? = some ⟨5, 10⟩ ∧
      ¬ offGrid (candidate (entered foodAhead) ⟨5, 10⟩) ∧
      blocked (entered foodAhead) (candidate (entered foodAhead) ⟨5, 10⟩) = false ∧
      candidate (entered foodAhead) ⟨5, 10⟩ = foodAhead.food ∧
      ∃ g1, step foodAhead = Except.ok g1 ∧
        g1.snake = [⟨2, 10⟩, ⟨3, 10⟩, ⟨4, 10⟩, ⟨5, 10⟩, ⟨6, 10⟩] ∧ g1.score = 10) := by
  have h1 : freshRunning.snake.getLast? = some ⟨5, 10⟩ ∧
      ¬ offGrid (candidate (entered freshRunning) ⟨5, 10⟩) ∧
      blocked (entered freshRunning) (candidate (entered freshRunning) ⟨5, 10⟩) = false ∧
      candidate (entered freshRunning) ⟨5, 10⟩ ≠ freshRunning.food := by decide!
  have h2 : foodAhead.snake.getLast? = some ⟨5, 10⟩ ∧
      ¬ offGrid (candidate (entered foodAhead) ⟨5, 10⟩) ∧
      blocked (entered foodAhead) (candidate (entered foodAhead) ⟨5, 10⟩) = false ∧
      candidate (entered foodAhead) ⟨5, 10⟩ = foodAhead.food := by decide!
  have e1 : freshRunning.snake.tail ++ [candidate (entered freshRunning) ⟨5, 10⟩] =
      [⟨3, 10⟩, ⟨4, 10⟩, ⟨5, 10⟩, ⟨6, 10⟩] ∧ freshRunning.score = 0 := by decide!
  have e2 : foodAhead.snake ++ [candidate (entered foodAhead) ⟨5, 10⟩] =
      [⟨2, 10⟩, ⟨3, 10⟩, ⟨4, 10⟩, ⟨5, 10⟩, ⟨6, 10⟩] ∧ foodAhead.score + 10 = 10 := by decide!
  obtain ⟨g1, hs1, hsn1, _, hsc1, _⟩ :=
    (step_moves_or_grows freshRunning ⟨5, 10⟩ h1.1 h1.2.1 h1.2.2.1).1 h1.2.2.2
  obtain ⟨g2, hs2, hsn2, _, hsc2, _⟩ :=
    (step_moves_or_grows foodAhead ⟨5, 10⟩ h2.1 h2.2.1 h2.2.2.1).2 h2.2.2.2
  exact ⟨⟨h1.1, h1.2.1, h1.2.2.1, h1.2.2.2, g1, hs1, hsn1.trans e1.1, hsc1.trans e1.2⟩,
    ⟨h2.1, h2.2.1, h2.2.2.1, h2.2.2.2, g2, hs2, hsn2.trans e2.1, hsc2.trans e2.2⟩⟩

/-- The method `init` resets the snake, the occupancy set, both directions and the score,
and leaves every other field but the food and the random stream as it was. -/
theorem init_eq (g : Game) :
    ∃ f r, init g = { g with
      snake := [⟨2, 10⟩, ⟨3, 10⟩, ⟨4, 10⟩, ⟨5, 10⟩],
      occupy := [(2, 10), (3, 10), (4, 10), (5, 10)],
      dir := ⟨1, 0⟩,
      nextDir := ⟨1, 0⟩,
      score := 0,
      food := f,
      rand := r } := by
  obtain ⟨f, r, h⟩ := placeFood_frame
    { g with
      snake := [⟨2, 10⟩, ⟨3, 10⟩, ⟨4, 10⟩, ⟨5, 10⟩],
      occupy := [(2, 10), (3, 10), (4, 10), (5, 10)],
      dir := ⟨1, 0⟩,
      nextDir := ⟨1, 0⟩,
      score := 0 }
  refine ⟨f, r, ?_⟩
  rw [← h]
  rfl

/-- A step that returns outside phase `Over` either ate (one more cell, ten more points) or
moved (same length, same score). -/
theorem step_alive (g g1 : Game) (hstep : step g = Except.ok g1) (hlive : g1.state ≠ State.Over) :
    (eats g = true ∧ g1.snake.length = g.snake.length + 1 ∧ g1.score = g.score + 10) ∨
    (eats g = false ∧ g1.snake.length = g.snake.length ∧ g1.score = g.score) := by
  cases hl : g.snake.getLast? with
  | none =>
    have hl2 : (entered g).snake.getLast? = none := by rw [entered_eq]; exact hl
    unfold step at hstep
    simp only [hl2] at hstep
    cases hstep
  | some head =>
    obtain ⟨t, r, hs⟩ := exists_cons_of_getLast? g.snake head hl
    rw [step_eq g t head r hs hl] at hstep
    split_ifs at hstep with h1 h2
    · exfalso
      apply hlive
      rw [← Except.ok.inj hstep, gameOver_eq]
    · left
      obtain ⟨f, rd, hp⟩ := placeFood_frame (addScore (pushHead (entered g)
        (candidate (entered g) head)))
      refine ⟨by simp only [eats, hl]; exact h2, ?_⟩
      rw [← Except.ok.inj hstep, hp, addScore_eq, entered_eq]
      simp [pushHead]
    · right
      refine ⟨by simp only [eats, hl]; simpa using h2, ?_⟩
      rw [← Except.ok.inj hstep, entered_eq]
      simp [hs]

/-- C5: from the state produced by `init`, after any sequence of `step()` calls none of
which ends in phase `Over` and exactly `N` of which eat food, the snake has
`INITIAL_LEN + N = 4 + N` cells and the score is `10 * N`. -/
theorem length_and_score_after_eating (g0 g : Game) (N : Nat)
    (hrun : Survives (init g0) N g) :
    g.snake.length = INITIAL_LEN + N ∧ g.score = 10 * (N : Int) ∧
      g.score = 10 * ((g.snake.length : Int) - 4) ∧ 4 ≤ g.snake.length := by
  have key : g.snake.length = INITIAL_LEN + N ∧ g.score = 10 * (N : Int) := by
    generalize hstart : init g0 = s at hrun
    induction hrun with
    | refl =>
      obtain ⟨f, r, h⟩ := init_eq g0
      rw [← hstart, h]
      simp [INITIAL_LEN]
    | move g1 g2 n _ hstep hlive hfood ih =>
      rcases step_alive g1 g2 hstep hlive with ⟨he, _⟩ | ⟨_, hlen, hsc⟩
      · rw [hfood] at he; cases he
      · rw [hlen, hsc]; exact ih
    | eat g1 g2 n _ hstep hlive hfood ih =>
      rcases step_alive g1 g2 hstep hlive with ⟨_, hlen, hsc⟩ | ⟨he, _⟩
      · obtain ⟨h1, h2⟩ := ih
        rw [hlen, hsc, h1, h2]
        constructor
        · omega
        · push_cast; ring
      · rw [hfood] at he; cases he
  obtain ⟨h1, h2⟩ := key
  refine ⟨h1, h2, ?_, ?_⟩
  · rw [h2, h1]; simp only [INITIAL_LEN]; push_cast; ring
  · rw [h1]; simp only [INITIAL_LEN]; omega

/-- Witness of C5: one eating step from the constructor state whose food lies on (6,10). -/
theorem length_and_score_after_eating_witness :
    ∃ g : Game, Survives freshFoodAhead 1 g ∧
      g.snake.length = INITIAL_LEN + 1 ∧ g.score = 10 * ((1 : Nat) : Int) ∧
      g.score = 10 * ((g.snake.length : Int) - 4) ∧ 4 ≤ g.snake.length := by
  have hv : (view (step freshFoodAhead)).map (fun v => v.2.2.1) = some State.Ready := by
    decide!
  have he : eats freshFoodAhead = true := by decide!
  cases hr : step freshFoodAhead with
  | error e => rw [hr] at hv; simp [view] at hv
  | ok g =>
    rw [hr] at hv
    simp only [view, Option.map_some', Option.some.injEq] at hv
    have hrun : Survives freshFoodAhead 1 g :=
      Survives.eat freshFoodAhead freshFoodAhead g 0 (Survives.refl _) hr
        (by rw [hv]; decide) he
    exact ⟨g, hrun, length_and_score_after_eating
      { state := State.Ready, speed := 10, interval := 1000 / 10, acc := 0, snake := [],
        dir := ⟨1, 0⟩, nextDir := ⟨1, 0⟩, occupy := [], food := ⟨10, 10⟩, score := 0,
        highScore := 0, rand := oneFoodAhead, calls := [] } g 1 hrun⟩

/-- In phase `Over` an operation other than `start`, `toggle` and `restart` returns and
keeps the phase, the snake and the score. -/
theorem keepsEpisode_over (fuel : Nat) (o : Op) (g : Game) (hover : g.state = State.Over)
    (ho : o.keepsEpisode) :
    ∃ g1, o.run fuel g = Except.ok g1 ∧ g1.state = State.Over ∧ g1.snake = g.snake ∧
      g1.score = g.score := by
  cases o with
  | start => exact absurd ho (by simp [Op.keepsEpisode])
  | toggle => exact absurd ho (by simp [Op.keepsEpisode])
  | restart => exact absurd ho (by simp [Op.keepsEpisode])
  | pause =>
    refine ⟨g, ?_, hover, rfl, rfl⟩
    simp [Op.run, pause, hover]
  | setDirection d =>
    refine ⟨setDirection d g, rfl, ?_⟩
    unfold setDirection
    split <;> exact ⟨hover, rfl, rfl⟩
  | setSpeed v => exact ⟨setSpeed v g, rfl, hover, rfl, rfl⟩
  | tick dt =>
    refine ⟨g, ?_, hover, rfl, rfl⟩
    simp [Op.run, tick, hover]

/-- C6: a step whose candidate head lies off the grid (the head on a border cell, the
committed direction pointing out, on any of the four sides) returns with phase `Over` and
with snake, occupancy, score and food unchanged; and from a state in phase `Over` every
sequence of `tick`, `setDirection`, `setSpeed` and `pause` calls returns with the same
snake and score, still in phase `Over`. -/
theorem wall_exit_ends_and_freezes (g : Game) (head : Vec) (o : Game) (ops : List Op)
    (fuel : Nat) :
    (g.snake.getLast? = some head → offGrid (candidate (entered g) head) →
      ∃ g1, step g = Except.ok g1 ∧ g1.state = State.Over ∧ g1.snake = g.snake ∧
        g1.occupy = g.occupy ∧ g1.score = g.score ∧ g1.food = g.food) ∧
    (o.state = State.Over → (∀ op ∈ ops, op.keepsEpisode) →
      ∃ o1, runOps fuel ops o = Except.ok o1 ∧ o1.state = State.Over ∧
        o1.snake = o.snake ∧ o1.score = o.score) := by
  constructor
  · intro hhead hoff
    obtain ⟨t, r, hs⟩ := exists_cons_of_getLast? g.snake head hhead
    refine ⟨gameOver (entered g), ?_, ?_⟩
    · rw [step_eq g t head r hs hhead, if_pos (Or.inl hoff)]
    · rw [gameOver_eq, entered_eq]
      exact ⟨rfl, rfl, rfl, rfl, rfl⟩
  · intro hover hall
    induction ops generalizing o with
    | nil => exact ⟨o, rfl, hover, rfl, rfl⟩
    | cons op rest ih =>
      obtain ⟨o1, hrun, hst, hsn, hsc⟩ :=
        keepsEpisode_over fuel op o hover (hall op (List.mem_cons_self _ _))
      obtain ⟨o2, hrun2, hst2, hsn2, hsc2⟩ :=
        ih o1 hst (fun op1 h1 => hall op1 (List.mem_cons_of_mem _ h1))
      refine ⟨o2, ?_, hst2, hsn2.trans hsn, hsc2.trans hsc⟩
      simp only [runOps, hrun]
      exact hrun2

/-- Witness of C6: the head on (20,10) heading right, and the ended game under a tick, a
turn, a speed change and a pause. -/
theorem wall_exit_ends_and_freezes_witness :
    (atRightWall.snake.getLast? = some ⟨20, 10⟩ ∧
      offGrid (candidate (entered atRightWall) ⟨20, 10⟩) ∧
      ∃ g1, step atRightWall = Except.ok g1 ∧ g1.state = State.Over ∧
        g1.snake = atRightWall.snake ∧ g1.occupy = atRightWall.occupy ∧
        g1.score = atRightWall.score ∧ g1.food = atRightWall.food) ∧
    (afterRightWall.state = State.Over ∧
      (∀ op ∈ [Op.tick 250, Op.setDirection ⟨0, 1⟩, Op.setSpeed 5, Op.pause],
        op.keepsEpisode) ∧
      ∃ o1, runOps 0 [Op.tick 250, Op.setDirection ⟨0, 1⟩, Op.setSpeed 5, Op.pause]
          afterRightWall = Except.ok o1 ∧ o1.state = State.Over ∧
        o1.snake = afterRightWall.snake ∧ o1.score = afterRightWall.score) := by
  have h1 : atRightWall.snake.getLast? = some ⟨20, 10⟩ := by decide
  have h2 : offGrid (candidate (entered atRightWall) ⟨20, 10⟩) := by decide
  have h3 : afterRightWall.state = State.Over := rfl
  have h4 : ∀ op ∈ [Op.tick 250, Op.setDirection ⟨0, 1⟩, Op.setSpeed 5, Op.pause],
      op.keepsEpisode := by
    simp [Op.keepsEpisode]
  exact ⟨⟨h1, h2, (wall_exit_ends_and_freezes atRightWall ⟨20, 10⟩ afterRightWall
      [Op.tick 250, Op.setDirection ⟨0, 1⟩, Op.setSpeed 5, Op.pause] 0).1 h1 h2⟩,
    ⟨h3, h4, (wall_exit_ends_and_freezes atRightWall ⟨20, 10⟩ afterRightWall
      [Op.tick 250, Op.setDirection ⟨0, 1⟩, Op.setSpeed 5, Op.pause] 0).2 h3 h4⟩⟩

/-- The constant `hitsTail` says that the candidate is the cell `snake[0]`. -/
theorem hitsTail_iff (g : Game) (c : Vec) : hitsTail g c = true ↔ g.snake.head? = some c := by
  unfold hitsTail
  rcases c with ⟨cx, cy⟩
  cases g.snake.head? with
  | none => simp
  | some t => rcases t with ⟨tx, ty⟩; simp

/-- The start of `step` leaves the snake alone. -/
theorem entered_snake (g : Game) : (entered g).snake = g.snake := by rw [entered_eq]

/-- The start of `step` leaves the occupancy set alone. -/
theorem entered_occupy (g : Game) : (entered g).occupy = g.occupy := by rw [entered_eq]

/-- C7: in a Running state whose occupancy set mirrors the snake, let `c` be the candidate
head.  If `c` is the tail cell `snake[0]` (a cell of the grid) and not the food cell, `step`
stays Running and the snake advances: the tail is removed and `c` becomes the head.  If `c`
is the tail cell and the food cell, `step` ends in phase `Over`.  If `c` is occupied and is
not the tail cell, `step` ends in phase `Over`. -/
theorem tail_cell_rule (g : Game) (head : Vec) (hrun : g.state = State.Running)
    (hsync : OccupancySynced g) (hhead : g.snake.getLast? = some head) :
    (g.snake.head? = some (candidate (entered g) head) →
      ¬ offGrid (candidate (entered g) head) → candidate (entered g) head ≠ g.food →
      ∃ g1, step g = Except.ok g1 ∧ g1.state = State.Running ∧
        g1.snake = g.snake.tail ++ [candidate (entered g) head] ∧
        g1.snake.getLast? = some (candidate (entered g) head)) ∧
    (g.snake.head? = some (candidate (entered g) head) → candidate (entered g) head = g.food →
      ∃ g1, step g = Except.ok g1 ∧ g1.state = State.Over ∧ g1.snake = g.snake) ∧
    (key (candidate (entered g) head).x (candidate (entered g) head).y ∈ g.occupy →
      g.snake.head? ≠ some (candidate (entered g) head) →
      ∃ g1, step g = Except.ok g1 ∧ g1.state = State.Over ∧ g1.snake = g.snake) := by
  obtain ⟨t, r, hs⟩ := exists_cons_of_getLast? g.snake head hhead
  have hstep := step_eq g t head r hs hhead
  have hover : (gameOver (entered g)).state = State.Over ∧
      (gameOver (entered g)).snake = g.snake := by
    rw [gameOver_eq, entered_eq]
    exact ⟨rfl, rfl⟩
  refine ⟨?_, ?_, ?_⟩
  · intro htail hin hfood
    have hw : ¬ willGrow (entered g) (candidate (entered g) head) = true := by
      rw [willGrow_iff, entered_food]; exact hfood
    have ht : hitsTail (entered g) (candidate (entered g) head) = true := by
      rw [hitsTail_iff, entered_snake]; exact htail
    have hb : ¬ (offGrid (candidate (entered g) head) ∨
        blocked (entered g) (candidate (entered g) head) = true) := by
      simp only [blocked, ht, Bool.not_eq_true] at hw ⊢
      simp [hin, hw]
    rw [if_neg hb, if_neg hw] at hstep
    refine ⟨_, hstep, ?_⟩
    rw [entered_eq]
    simp [hs, hrun]
  · intro htail hfood
    have hw : willGrow (entered g) (candidate (entered g) head) = true := by
      rw [willGrow_iff, entered_food]; exact hfood
    have hmem : key (candidate (entered g) head).x (candidate (entered g) head).y ∈
        (entered g).occupy := by
      rw [entered_occupy]
      exact (hsync _ _).2 (List.mem_of_mem_head? htail)
    have hb : offGrid (candidate (entered g) head) ∨
        blocked (entered g) (candidate (entered g) head) = true := by
      right
      simp [blocked, setHas, hmem, hw]
    rw [if_pos hb] at hstep
    exact ⟨_, hstep, hover⟩
  · intro hocc hnot
    have ht : hitsTail (entered g) (candidate (entered g) head) = false := by
      rw [← Bool.not_eq_true, hitsTail_iff, entered_snake]; exact hnot
    have hb : offGrid (candidate (entered g) head) ∨
        blocked (entered g) (candidate (entered g) head) = true := by
      right
      simp [blocked, setHas, entered_occupy, hocc, ht]
    rw [if_pos hb] at hstep
    exact ⟨_, hstep, hover⟩

/-- Witness of C7: the curled snake turning into its tail cell (4,10) without food, the
same with the food on (4,10), and a longer snake turning into a body cell. -/
theorem tail_cell_rule_witness :
    (curled.state = State.Running ∧ OccupancySynced curled ∧
      curled.snake.getLast? = some ⟨4, 9⟩ ∧
      curled.snake.head? = some (candidate (entered curled) ⟨4, 9⟩) ∧
      ¬ offGrid (candidate (entered curled) ⟨4, 9⟩) ∧
      candidate (entered curled) ⟨4, 9⟩ ≠ curled.food ∧
      ∃ g1, step curled = Except.ok g1 ∧ g1.state = State.Running ∧
        g1.snake = [⟨5, 10⟩, ⟨5, 9⟩, ⟨4, 9⟩, ⟨4, 10⟩]) ∧
    (curledFoodOnTail.state = State.Running ∧ OccupancySynced curledFoodOnTail ∧
      curledFoodOnTail.snake.getLast? = some ⟨4, 9⟩ ∧
      curledFoodOnTail.snake.head? = some (candidate (entered curledFoodOnTail) ⟨4, 9⟩) ∧
      candidate (entered curledFoodOnTail) ⟨4, 9⟩ = curledFoodOnTail.food ∧
      ∃ g1, step curledFoodOnTail = Except.ok g1 ∧ g1.state = State.Over ∧
        g1.snake = curledFoodOnTail.snake) ∧
    (curledBodyAbove.state = State.Running ∧ OccupancySynced curledBodyAbove ∧
      curledBodyAbove.snake.getLast? = some ⟨4, 9⟩ ∧
      key (candidate (entered curledBodyAbove) ⟨4, 9⟩).x
        (candidate (entered curledBodyAbove) ⟨4, 9⟩).y ∈ curledBodyAbove.occupy ∧
      curledBodyAbove.snake.head? ≠ some (candidate (entered curledBodyAbove) ⟨4, 9⟩) ∧
      ∃ g1, step curledBodyAbove = Except.ok g1 ∧ g1.state = State.Over ∧
        g1.snake = curledBodyAbove.snake) := by
  have s1 : OccupancySynced curled := by
    intro x y
    simp [curled, key]
  have s2 : OccupancySynced curledFoodOnTail := by
    intro x y
    simp [curledFoodOnTail, curled, key]
  have s3 : OccupancySynced curledBodyAbove := by
    intro x y
    simp [curledBodyAbove, curled, key]
  have a1 : curled.snake.head? = some (candidate (entered curled) ⟨4, 9⟩) ∧
      ¬ offGrid (candidate (entered curled) ⟨4, 9⟩) ∧
      candidate (entered curled) ⟨4, 9⟩ ≠ curled.food ∧
      curled.snake.tail ++ [candidate (entered curled) ⟨4, 9⟩] =
        [⟨5, 10⟩, ⟨5, 9⟩, ⟨4, 9⟩, ⟨4, 10⟩] := by decide
  have a2 : curledFoodOnTail.snake.head? = some (candidate (entered curledFoodOnTail) ⟨4, 9⟩) ∧
      candidate (entered curledFoodOnTail) ⟨4, 9⟩ = curledFoodOnTail.food := by decide
  have a3 : key (candidate (entered curledBodyAbove) ⟨4, 9⟩).x
        (candidate (entered curledBodyAbove) ⟨4, 9⟩).y ∈ curledBodyAbove.occupy ∧
      curledBodyAbove.snake.head? ≠ some (candidate (entered curledBodyAbove) ⟨4, 9⟩) := by
    decide
  obtain ⟨g1, h1, h1s, h1n, _⟩ :=
    (tail_cell_rule curled ⟨4, 9⟩ rfl s1 rfl).1 a1.1 a1.2.1 a1.2.2.1
  exact ⟨⟨rfl, s1, rfl, a1.1, a1.2.1, a1.2.2.1, g1, h1, h1s, h1n.trans a1.2.2.2⟩,
    ⟨rfl, s2, rfl, a2.1, a2.2,
      (tail_cell_rule curledFoodOnTail ⟨4, 9⟩ rfl s2 rfl).2.1 a2.1 a2.2⟩,
    ⟨rfl, s3, rfl, a3.1, a3.2,
      (tail_cell_rule curledBodyAbove ⟨4, 9⟩ rfl s3 rfl).2.2 a3.1 a3.2⟩⟩

/-- On a non-empty snake `step` returns, with the direction committed at its start and the
pending direction untouched. -/
theorem step_dir (g : Game) (hne : g.snake ≠ []) :
    ∃ g1, step g = Except.ok g1 ∧ g1.dir = (entered g).dir ∧ g1.nextDir = g.nextDir := by
  obtain ⟨t, r, hs⟩ := List.exists_cons_of_ne_nil hne
  have hh : g.snake.getLast? = some (g.snake.getLast hne) := List.getLast?_eq_getLast _ hne
  have hnext : (entered g).nextDir = g.nextDir := by rw [entered_eq]
  rw [step_eq g t (g.snake.getLast hne) r hs hh, ← hnext]
  generalize entered g = e
  split_ifs with h1 h2
  · refine ⟨_, rfl, ?_⟩
    rw [gameOver_eq]
    exact ⟨rfl, rfl⟩
  · obtain ⟨f, rd, hp⟩ := placeFood_frame (addScore (pushHead e
      (candidate e (g.snake.getLast hne))))
    refine ⟨_, rfl, ?_⟩
    rw [hp, addScore_eq]
    exact ⟨rfl, rfl⟩
  · exact ⟨_, rfl, rfl, rfl⟩

/-- C8 (counterexample): with current direction (1,0) and a turn up already pending,
`setDirection((-1,0))` is dropped and leaves the pending direction (0,-1) in place, and
the step that follows changes the current direction from (1,0) to (0,-1). -/
theorem dropped_reversal_then_turn :
    queuedUp.dir = ⟨1, 0⟩ ∧ isOpposite queuedUp.dir ⟨-1, 0⟩ = true ∧
      (setDirection ⟨-1, 0⟩ queuedUp).nextDir = queuedUp.nextDir ∧
      ∃ g1, step (setDirection ⟨-1, 0⟩ queuedUp) = Except.ok g1 ∧ g1.dir = ⟨0, -1⟩ ∧
        g1.dir ≠ queuedUp.dir := by
  have h0 : queuedUp.dir = ⟨1, 0⟩ ∧ isOpposite queuedUp.dir ⟨-1, 0⟩ = true ∧
      (setDirection ⟨-1, 0⟩ queuedUp).nextDir = queuedUp.nextDir := by decide!
  have hv : dirsOf (step (setDirection ⟨-1, 0⟩ queuedUp)) = some (⟨0, -1⟩, ⟨0, -1⟩) := by
    decide!
  refine ⟨h0.1, h0.2.1, h0.2.2, ?_⟩
  cases hr : step (setDirection ⟨-1, 0⟩ queuedUp) with
  | error e => rw [hr] at hv; simp [dirsOf] at hv
  | ok g1 =>
    rw [hr] at hv
    simp only [dirsOf, Option.some.injEq, Prod.mk.injEq] at hv
    refine ⟨g1, rfl, hv.1, ?_⟩
    rw [hv.1, h0.1]
    decide

/-- C8 (amended): when `d` is the exact opposite of the current direction, `setDirection(d)`
returns the state unchanged, pending direction included; the step that follows keeps the
current direction when the pending direction equals it or is its opposite, and otherwise
commits the direction that was pending before the call. -/
theorem dropped_reversal_keeps_pending (g : Game) (d : Vec)
    (hopp : isOpposite g.dir d = true) (hne : g.snake ≠ []) :
    setDirection d g = g ∧
      ∃ g1, step (setDirection d g) = Except.ok g1 ∧
        (g.nextDir = g.dir ∨ isOpposite g.dir g.nextDir = true → g1.dir = g.dir) ∧
        (isOpposite g.dir g.nextDir = false → g1.dir = g.nextDir) := by
  have hset : setDirection d g = g := by
    unfold setDirection
    rw [if_pos hopp]
  obtain ⟨g1, hstep, hdir, _⟩ := step_dir g hne
  have hent : (entered g).dir = if isOpposite g.dir g.nextDir then g.dir else g.nextDir := by
    rw [entered_eq]
  rw [hent] at hdir
  refine ⟨hset, g1, by rw [hset]; exact hstep, ?_, ?_⟩
  · intro h
    rw [hdir]
    rcases h with h | h
    · rw [h]; simp
    · rw [if_pos h]
  · intro h
    rw [hdir, h]
    simp

/-- Witness of C8 (amended): the fresh Running game, heading (1,0), asked to turn to (-1,0). -/
theorem dropped_reversal_keeps_pending_witness :
    (isOpposite freshRunning.dir ⟨-1, 0⟩ = true ∧ freshRunning.snake ≠ []) ∧
    setDirection ⟨-1, 0⟩ freshRunning = freshRunning ∧
      ∃ g1, step (setDirection ⟨-1, 0⟩ freshRunning) = Except.ok g1 ∧
        (freshRunning.nextDir = freshRunning.dir ∨
          isOpposite freshRunning.dir freshRunning.nextDir = true →
            g1.dir = freshRunning.dir) ∧
        (isOpposite freshRunning.dir freshRunning.nextDir = false →
          g1.dir = freshRunning.nextDir) :=
  have h : isOpposite freshRunning.dir ⟨-1, 0⟩ = true ∧ freshRunning.snake ≠ [] := by decide!
  ⟨h, dropped_reversal_keeps_pending freshRunning ⟨-1, 0⟩ h.1 h.2⟩

/-- One iteration of the loop of `placeFood`: the state after the two draws. -/
theorem placeFoodLoop_zero (g : Game) :
    placeFoodLoop 0 g = { g with food := sampledCell g.rand 0, rand := fun n => g.rand (n + 2) } :=
  rfl

/-- An iteration of the loop of `placeFood` below the try cap: the loop goes on exactly when
the sampled cell is occupied. -/
theorem placeFoodLoop_succ (k : Nat) (g : Game) :
    placeFoodLoop (k + 1) g =
      if key (sampledCell g.rand 0).x (sampledCell g.rand 0).y ∈ g.occupy then
        placeFoodLoop k { g with food := sampledCell g.rand 0, rand := fun n => g.rand (n + 2) }
      else { g with food := sampledCell g.rand 0, rand := fun n => g.rand (n + 2) } := by
  rw [placeFoodLoop]
  simp only [random, setHas, decide_eq_true_eq]
  rfl

/-- After one iteration the next sampled cell is the first of the shifted stream. -/
theorem sampledCell_shift (rand : Nat → ℚ) (i : Nat) :
    sampledCell (fun n => rand (n + 2)) i = sampledCell rand (i + 1) := rfl

/-- The loop of `placeFood` leaves the occupancy set alone. -/
theorem placeFoodLoop_occupy (k : Nat) (g : Game) : (placeFoodLoop k g).occupy = g.occupy := by
  obtain ⟨f, r, h⟩ := placeFoodLoop_frame k g
  rw [h]

/-- When one of the first `k + 1` sampled cells is free, the loop leaves the food on a free
cell. -/
theorem placeFoodLoop_free (k : Nat) :
    ∀ g : Game, (∃ i, i ≤ k ∧
        key (sampledCell g.rand i).x (sampledCell g.rand i).y ∉ g.occupy) →
      key (placeFoodLoop k g).food.x (placeFoodLoop k g).food.y ∉ g.occupy := by
  induction k with
  | zero =>
    intro g ⟨i, hi, hfree⟩
    obtain rfl : i = 0 := by omega
    rw [placeFoodLoop_zero]
    exact hfree
  | succ k ih =>
    intro g ⟨i, hi, hfree⟩
    rw [placeFoodLoop_succ]
    split_ifs with h0
    · have hpos : i ≠ 0 := by
        rintro rfl
        exact hfree h0
      obtain ⟨j, rfl⟩ : ∃ j, i = j + 1 := ⟨i - 1, by omega⟩
      exact ih { g with food := sampledCell g.rand 0, rand := fun n => g.rand (n + 2) }
        ⟨j, by omega, by rw [sampledCell_shift]; exact hfree⟩
    · exact h0

/-- When all of the first `k + 1` sampled cells are occupied, the loop leaves the food on
the last of them. -/
theorem placeFoodLoop_taken (k : Nat) :
    ∀ g : Game, (∀ i, i ≤ k →
        key (sampledCell g.rand i).x (sampledCell g.rand i).y ∈ g.occupy) →
      (placeFoodLoop k g).food = sampledCell g.rand k := by
  induction k with
  | zero =>
    intro g _
    rw [placeFoodLoop_zero]
  | succ k ih =>
    intro g hall
    rw [placeFoodLoop_succ, if_pos (hall 0 (Nat.zero_le _))]
    rw [ih { g with food := sampledCell g.rand 0, rand := fun n => g.rand (n + 2) }
      (fun i hi => by rw [sampledCell_shift]; exact hall (i + 1) (by omega))]
    exact sampledCell_shift g.rand k

/-- C9 (counterexample): with the cells (0,0) to (3,0) occupied, all other cells free, and a
random source that returns 0 on every call, `placeFood` gives up after 1001 tries and leaves
the food on the occupied cell (0,0). -/
theorem placeFood_gives_up_on_occupied_cell :
    key 5 5 ∉ cornerTaken.occupy ∧ ¬ offGrid ⟨5, 5⟩ ∧
      (placeFood cornerTaken).food = ⟨0, 0⟩ ∧
      key (placeFood cornerTaken).food.x (placeFood cornerTaken).food.y ∈
        (placeFood cornerTaken).occupy := by
  have hcell : ∀ i, sampledCell cornerTaken.rand i = ⟨0, 0⟩ := by
    intro i
    simp [sampledCell, cornerTaken, streamOf, randInt]
  have hfood : (placeFood cornerTaken).food = ⟨0, 0⟩ := by
    unfold placeFood
    rw [placeFoodLoop_taken 1000 cornerTaken, hcell]
    intro i _
    rw [hcell]
    decide
  refine ⟨by decide, by decide, hfood, ?_⟩
  unfold placeFood at hfood ⊢
  rw [placeFoodLoop_occupy, hfood]
  decide

/-- C9 (amended): if one of the first 1001 cells that the random sampler yields is not in
the occupancy set, `placeFood` ends with the food on a cell that is not in the occupancy
set; if all 1001 are occupied it stops at the try cap with the food on the 1001st sampled
cell, an occupied one.  The occupancy set itself is not changed. -/
theorem placeFood_free_within_cap (g : Game) :
    ((∃ i, i ≤ 1000 ∧ key (sampledCell g.rand i).x (sampledCell g.rand i).y ∉ g.occupy) →
      key (placeFood g).food.x (placeFood g).food.y ∉ (placeFood g).occupy) ∧
    ((∀ i, i ≤ 1000 → key (sampledCell g.rand i).x (sampledCell g.rand i).y ∈ g.occupy) →
      (placeFood g).food = sampledCell g.rand 1000 ∧
        key (placeFood g).food.x (placeFood g).food.y ∈ (placeFood g).occupy) ∧
    (placeFood g).occupy = g.occupy := by
  unfold placeFood
  refine ⟨?_, ?_, placeFoodLoop_occupy 1000 g⟩
  · intro hfree
    rw [placeFoodLoop_occupy]
    exact placeFoodLoop_free 1000 g hfree
  · intro hall
    have hfood := placeFoodLoop_taken 1000 g hall
    refine ⟨hfood, ?_⟩
    rw [placeFoodLoop_occupy, hfood]
    exact hall 1000 (Nat.le_refl _)

/-- Witness of C9 (amended): the fresh Running game, all of whose samples are (0,0), a free
cell; and the cornered snake, all of whose samples are the occupied cell (0,0). -/
theorem placeFood_free_within_cap_witness :
    ((∃ i, i ≤ 1000 ∧ key (sampledCell freshRunning.rand i).x
        (sampledCell freshRunning.rand i).y ∉ freshRunning.occupy) ∧
      key (placeFood freshRunning).food.x (placeFood freshRunning).food.y ∉
        (placeFood freshRunning).occupy) ∧
    ((∀ i, i ≤ 1000 → key (sampledCell cornerTaken.rand i).x
        (sampledCell cornerTaken.rand i).y ∈ cornerTaken.occupy) ∧
      (placeFood cornerTaken).food = sampledCell cornerTaken.rand 1000) := by
  have h1 : ∃ i, i ≤ 1000 ∧ key (sampledCell freshRunning.rand i).x
      (sampledCell freshRunning.rand i).y ∉ freshRunning.occupy :=
    ⟨0, Nat.zero_le _, by decide!⟩
  have h2 : ∀ i, i ≤ 1000 → key (sampledCell cornerTaken.rand i).x
      (sampledCell cornerTaken.rand i).y ∈ cornerTaken.occupy := by
    intro i _
    have hcell : sampledCell cornerTaken.rand i = ⟨0, 0⟩ := by
      simp [sampledCell, cornerTaken, streamOf, randInt]
    rw [hcell]
    decide
  exact ⟨⟨h1, (placeFood_free_within_cap freshRunning).1 h1⟩,
    ⟨h2, ((placeFood_free_within_cap cornerTaken).2.1 h2).1⟩⟩

/-- C10 (code defect): one `tick` can submit the same game twice.  From the constructor
(speed 10, first food on (6,10)), `start()` and a single `tick(1700)` run seventeen steps:
the first eats, the sixteenth leaves the grid from (20,10), ends the game and calls
`updateRecords(10)`, and the seventeenth starts in phase `Over`, leaves the grid again and
calls `updateRecords(10)` a second time. -/
theorem stalled_tick_submits_twice :
    ∃ g : Game, Reachable g ∧
      runOps 17 stallOps (construct 10 0 oneFoodAhead) = Except.ok g ∧
      g.state = State.Over ∧ g.score = 10 ∧
      g.calls.count (Call.updateRecords 10) = 2 ∧
      g.calls.drop 15 = [Call.step State.Running, Call.updateRecords 10,
        Call.step State.Over, Call.updateRecords 10] := by
  have hv : (view (runOps 17 stallOps (construct 10 0 oneFoodAhead))).map
      (fun v => (v.2.2.1, v.2.2.2.1, v.2.2.2.2.count (Call.updateRecords 10),
        v.2.2.2.2.drop 15)) =
      some (State.Over, 10, 2, [Call.step State.Running, Call.updateRecords 10,
        Call.step State.Over, Call.updateRecords 10]) := by
    decide!
  cases hr : runOps 17 stallOps (construct 10 0 oneFoodAhead) with
  | error e => rw [hr] at hv; simp [view] at hv
  | ok g =>
    rw [hr] at hv
    simp only [view, Option.map_some', Option.some.injEq, Prod.mk.injEq] at hv
    refine ⟨g, ?_, rfl, hv.1, hv.2.1, hv.2.2.1, hv.2.2.2⟩
    exact reachable_runOps 17 stallOps _ g (Reachable.construct 10 0 _ (by norm_num))
      (by simp [stallOps, Op.Allowed]) hr

/-- C11 (code defect): `step()` runs in phase `Over` inside the catch-up loop of `tick`.
From the constructor (speed 10, food on (0,0)), `start()` and a single `tick(1700)` call
`step()` seventeen times: the sixteenth leaves the grid from (20,10) and ends the game, and
the seventeenth starts in phase `Over`. -/
theorem catch_up_steps_after_game_over :
    ∃ g : Game, Reachable g ∧
      runOps 17 overrunOps (construct 10 0 (streamOf [])) = Except.ok g ∧
      g.state = State.Over ∧ stepCount g = 17 ∧
      g.calls.getLast? = some (Call.step State.Over) ∧
      Call.step State.Over ∈ g.calls := by
  have hv : (view (runOps 17 overrunOps (construct 10 0 (streamOf [])))).map
      (fun v => (v.2.2.1, v.2.2.2.2.countP
        (fun c => match c with | Call.step _ => true | _ => false),
        v.2.2.2.2.getLast?)) =
      some (State.Over, 17, some (Call.step State.Over)) := by
    decide!
  cases hr : runOps 17 overrunOps (construct 10 0 (streamOf [])) with
  | error e => rw [hr] at hv; simp [view] at hv
  | ok g =>
    rw [hr] at hv
    simp only [view, Option.map_some', Option.some.injEq, Prod.mk.injEq] at hv
    refine ⟨g, ?_, rfl, hv.1, hv.2.1, hv.2.2, List.mem_of_mem_getLast? hv.2.2⟩
    exact reachable_runOps 17 overrunOps _ g (Reachable.construct 10 0 _ (by norm_num))
      (by simp [overrunOps, Op.Allowed]) hr

/-- The comparator is not positive exactly when the first record ranks before the second. -/
theorem placedBefore_iff (a b : Record) : placedBefore a b ↔ ranksBefore a b := by
  unfold placedBefore compareRecords ranksBefore
  split_ifs with h
  · constructor
    · intro hle
      left
      omega
    · rintro (hlt | ⟨heq, _⟩)
      · omega
      · omega
  · constructor
    · intro hle
      right
      constructor <;> omega
    · rintro (hlt | ⟨_, hle⟩)
      · omega
      · omega

instance instIsTotalPlacedBefore : IsTotal Record placedBefore :=
  ⟨fun a b => by
    rw [placedBefore_iff, placedBefore_iff]
    unfold ranksBefore
    omega⟩

instance instIsTransPlacedBefore : IsTrans Record placedBefore :=
  ⟨fun a b c hab hbc => by
    rw [placedBefore_iff] at hab hbc ⊢
    unfold ranksBefore at hab hbc ⊢
    omega⟩

/-- C12: for every stored list of records `L` and every score `s` submitted at time `t`,
`updateRecords` hands to `saveRecords` the first ten elements of `L` followed by `(s, t)`
sorted by the comparator.  That list is sorted by score descending with ties ordered by
earlier time first, has `min (|L| + 1) 10` elements, and is a sub-multiset of `L` plus
`(s, t)`.  Submitting 150 at time 1, 90 at time 2 and 150 at time 3 to an empty store
yields (150,1), (150,3), (90,2). -/
theorem updateRecords_keeps_top_ten (L : List Record) (s t : Int) :
    (∃ saved, updateRecords (Stored.text (Parsed.array L)) s t = Except.ok saved ∧
      saved = (sortRecords (L ++ [⟨s, t⟩])).take 10 ∧
      saved.Pairwise ranksBefore ∧
      saved.length = min (L.length + 1) 10 ∧
      saved.Subperm (L ++ [⟨s, t⟩])) ∧
    (updateRecords Stored.missing 150 1 = Except.ok [⟨150, 1⟩] ∧
      updateRecords (Stored.text (Parsed.array [⟨150, 1⟩])) 90 2 =
        Except.ok [⟨150, 1⟩, ⟨90, 2⟩] ∧
      updateRecords (Stored.text (Parsed.array [⟨150, 1⟩, ⟨90, 2⟩])) 150 3 =
        Except.ok [⟨150, 1⟩, ⟨150, 3⟩, ⟨90, 2⟩]) := by
  constructor
  · have hsaved : updateRecords (Stored.text (Parsed.array L)) s t =
        Except.ok ((sortRecords (L ++ [⟨s, t⟩])).take 10) := by
      simp only [updateRecords, loadRecords, RECORDS_LIMIT]
      split_ifs with hlen
      · rfl
      · rw [List.take_of_length_le (by omega)]
    have hsorted : (sortRecords (L ++ [⟨s, t⟩])).Pairwise placedBefore :=
      List.sorted_insertionSort placedBefore _
    have hperm : (sortRecords (L ++ [⟨s, t⟩])).Perm (L ++ [⟨s, t⟩]) :=
      List.perm_insertionSort placedBefore _
    refine ⟨_, hsaved, rfl, ?_, ?_, ?_⟩
    · exact ((hsorted.sublist (List.take_sublist 10 _)).imp
        (fun h => (placedBefore_iff _ _).1 h))
    · rw [List.length_take, sortRecords, List.length_insertionSort, List.length_append]
      simp only [List.length_singleton]
      omega
    · exact (List.take_sublist 10 _).subperm.trans hperm.subperm
  · exact ⟨rfl, rfl, rfl⟩

/-- C17 (code defect): a missing entry and a text that `JSON.parse` rejects are read as the
empty list, and a missing high score as 0; but a stored text that parses to a value that is
not an array (such as `5`, `null` or an object) is returned by `loadRecords` as it is, so
that `updateRecords` throws a `TypeError` at `list.push`, and a stored high score that is
not a numeral is read as `NaN`. -/
theorem corrupt_store_reaches_caller :
    loadRecords Stored.missing = Loaded.list [] ∧
      loadRecords (Stored.text Parsed.syntaxError) = Loaded.list [] ∧
      readHighScore StoredNumber.missing = JsNumber.num 0 ∧
      loadRecords (Stored.text Parsed.notArray) = Loaded.other ∧
      loadRecords (Stored.text Parsed.notArray) ≠ Loaded.list [] ∧
      updateRecords (Stored.text Parsed.notArray) 10 0 = Except.error Fault.typeError ∧
      readHighScore StoredNumber.garbage = JsNumber.nan ∧
      readHighScore StoredNumber.garbage ≠ JsNumber.num 0 := by
  refine ⟨rfl, rfl, rfl, rfl, ?_, rfl, rfl, ?_⟩
  · decide
  · decide

/-- The method `restart` sets the phase and the accumulator and then does what `init` does. -/
theorem restart_eq (g : Game) :
    ∃ f r, restart g = { g with
      state := State.Ready,
      acc := 0,
      snake := [⟨2, 10⟩, ⟨3, 10⟩, ⟨4, 10⟩, ⟨5, 10⟩],
      occupy := [(2, 10), (3, 10), (4, 10), (5, 10)],
      dir := ⟨1, 0⟩,
      nextDir := ⟨1, 0⟩,
      score := 0,
      food := f,
      rand := r } := by
  obtain ⟨f, r, h⟩ := init_eq { g with state := State.Ready, acc := 0 }
  exact ⟨f, r, h⟩

/-- C14: from any state `restart` yields phase `Ready`, accumulator 0, score 0, the snake
(2,10),(3,10),(4,10),(5,10) tail first (head (5,10)), an occupancy set of exactly those four
cells, current and pending direction (1,0), and the high score it had. -/
theorem restart_resets_board (g : Game) :
    (restart g).state = State.Ready ∧ (restart g).acc = 0 ∧ (restart g).score = 0 ∧
      (restart g).snake = [⟨2, 10⟩, ⟨3, 10⟩, ⟨4, 10⟩, ⟨5, 10⟩] ∧
      (restart g).snake.getLast? = some ⟨5, 10⟩ ∧
      (restart g).occupy = [(2, 10), (3, 10), (4, 10), (5, 10)] ∧
      OccupancySynced (restart g) ∧
      (restart g).dir = ⟨1, 0⟩ ∧ (restart g).nextDir = ⟨1, 0⟩ ∧
      (restart g).highScore = g.highScore := by
  obtain ⟨f, r, h⟩ := restart_eq g
  rw [h]
  refine ⟨rfl, rfl, rfl, rfl, rfl, rfl, ?_, rfl, rfl, rfl⟩
  intro x y
  simp [key]

/-- C15 (counterexample): on an ended game with 50 ms in the accumulator, `init` leaves the
phase `Over` and the accumulator 50, and `start` ends Running with the accumulator 50. -/
theorem init_leaves_phase_and_accumulator :
    overWithRemainder.state = State.Over ∧
      (init overWithRemainder).state = State.Over ∧
      (init overWithRemainder).state ≠ State.Ready ∧
      (init overWithRemainder).acc = 50 ∧ (init overWithRemainder).acc ≠ 0 ∧
      (start overWithRemainder).acc = 50 ∧ (start overWithRemainder).acc ≠ 0 := by
  obtain ⟨f, r, h⟩ := init_eq overWithRemainder
  have hs : start overWithRemainder = { init overWithRemainder with state := State.Running } :=
    rfl
  have hst : (init overWithRemainder).state = State.Over := by rw [h]; rfl
  have hacc : (init overWithRemainder).acc = 50 := by rw [h]; rfl
  have hacc2 : (start overWithRemainder).acc = 50 := by rw [hs]; exact hacc
  refine ⟨rfl, hst, by rw [hst]; decide, hacc, by rw [hacc]; norm_num, hacc2,
    by rw [hacc2]; norm_num⟩

/-- C15 (amended): `init` leaves the phase and the accumulator as they are; `restart` sets
the phase to `Ready` and the accumulator to 0 before it runs `init`; and `start` in phase
`Over` re-initializes (snake, directions and score as after `init`) and ends in phase
`Running`. -/
theorem init_keeps_phase_restart_clears (g : Game) :
    (init g).state = g.state ∧ (init g).acc = g.acc ∧
      (restart g).state = State.Ready ∧ (restart g).acc = 0 ∧
      (g.state = State.Over →
        (start g).state = State.Running ∧ (start g).snake = (init g).snake ∧
        (start g).snake = [⟨2, 10⟩, ⟨3, 10⟩, ⟨4, 10⟩, ⟨5, 10⟩] ∧ (start g).score = 0 ∧
        (start g).dir = ⟨1, 0⟩ ∧ (start g).nextDir = ⟨1, 0⟩) := by
  obtain ⟨f, r, h⟩ := init_eq g
  obtain ⟨f2, r2, h2⟩ := restart_eq g
  refine ⟨by rw [h], by rw [h], by rw [h2], by rw [h2], ?_⟩
  intro hover
  have hs : start g = { init g with state := State.Running } := by
    unfold start
    simp [hover]
  rw [hs, h]
  exact ⟨rfl, rfl, rfl, rfl, rfl, rfl⟩

/-- Witness of C15 (amended): the ended game with 50 ms in the accumulator. -/
theorem init_keeps_phase_restart_clears_witness :
    overWithRemainder.state = State.Over ∧
      (init overWithRemainder).state = overWithRemainder.state ∧
      (init overWithRemainder).acc = overWithRemainder.acc ∧
      (restart overWithRemainder).state = State.Ready ∧ (restart overWithRemainder).acc = 0 ∧
      (start overWithRemainder).state = State.Running ∧
      (start overWithRemainder).snake = [⟨2, 10⟩, ⟨3, 10⟩, ⟨4, 10⟩, ⟨5, 10⟩] ∧
      (start overWithRemainder).score = 0 :=
  have h := init_keeps_phase_restart_clears overWithRemainder
  have hs := h.2.2.2.2 rfl
  ⟨rfl, h.1, h.2.1, h.2.2.1, h.2.2.2.1, hs.1, hs.2.2.1, hs.2.2.2.1⟩

/-- A property kept by `step` and by writes to the accumulator is kept by the loop of
`tick`. -/
theorem tickLoop_preserves (P : Game → Prop)
    (hstep : ∀ g g1, P g → step g = Except.ok g1 → P g1)
    (hacc : ∀ (g : Game) (a : ℚ), P g → P { g with acc := a }) :
    ∀ (fuel : Nat) (g g1 : Game), P g → tickLoop fuel g = Except.ok g1 → P g1 := by
  intro fuel
  induction fuel with
  | zero =>
    intro g g1 hP hr
    unfold tickLoop at hr
    split_ifs at hr with hge
    cases hr
    exact hP
  | succ n ih =>
    intro g g1 hP hr
    unfold tickLoop at hr
    split_ifs at hr with hge
    · cases hs : step g with
      | error e => rw [hs] at hr; cases hr
      | ok g2 =>
        rw [hs] at hr
        exact ih _ g1 (hacc g2 _ (hstep g g2 hP hs)) hr
    · cases hr; exact hP

/-- A property kept by `init`, by `step` and by the field writes of the control surface is
kept by every operation; `D` says which directions `setDirection` may be given. -/
theorem run_preserves (P : Game → Prop) (D : Vec → Prop)
    (hinit : ∀ g, P g → P (init g))
    (hstate : ∀ (g : Game) (s : State), P g → P { g with state := s })
    (hacc : ∀ (g : Game) (a : ℚ), P g → P { g with acc := a })
    (hspeed : ∀ (g : Game) (v : ℚ), P g → P (setSpeed v g))
    (hnext : ∀ (g : Game) (d : Vec), D d → isOpposite g.dir d = false → P g →
      P { g with nextDir := d })
    (hstep : ∀ g g1, P g → step g = Except.ok g1 → P g1)
    (fuel : Nat) (o : Op) (g g1 : Game) (hD : ∀ d, o = Op.setDirection d → D d)
    (hP : P g) (hr : o.run fuel g = Except.ok g1) : P g1 := by
  cases o with
  | start =>
    cases hr
    unfold start
    split_ifs with h1 h2
    · exact hP
    · exact hstate _ _ (hinit g hP)
    · exact hstate _ _ hP
  | pause =>
    cases hr
    unfold pause
    split_ifs with h1
    · exact hP
    · exact hstate _ _ hP
  | toggle =>
    cases hr
    unfold toggle pause start
    split_ifs with h1 h2 h3
    · exact absurd h1 h2
    · exact hstate _ _ hP
    · exact hstate _ _ (hinit g hP)
    · exact hstate _ _ hP
  | restart =>
    cases hr
    exact hinit _ (hacc _ 0 (hstate g State.Ready hP))
  | setDirection d =>
    cases hr
    unfold setDirection
    split_ifs with h1
    · exact hP
    · exact hnext g d (hD d rfl) (by simpa using h1) hP
  | setSpeed v =>
    cases hr
    exact hspeed g v hP
  | tick dt =>
    simp only [Op.run, tick] at hr
    split_ifs at hr with h1
    · cases hr; exact hP
    · exact tickLoop_preserves P hstep hacc fuel _ g1 (hacc g _ hP) hr

/-- The same for a sequence of operations. -/
theorem runOps_preserves (P : Game → Prop) (D : Vec → Prop)
    (hinit : ∀ g, P g → P (init g))
    (hstate : ∀ (g : Game) (s : State), P g → P { g with state := s })
    (hacc : ∀ (g : Game) (a : ℚ), P g → P { g with acc := a })
    (hspeed : ∀ (g : Game) (v : ℚ), P g → P (setSpeed v g))
    (hnext : ∀ (g : Game) (d : Vec), D d → isOpposite g.dir d = false → P g →
      P { g with nextDir := d })
    (hstep : ∀ g g1, P g → step g = Except.ok g1 → P g1)
    (fuel : Nat) (ops : List Op) :
    ∀ g g1 : Game, (∀ o ∈ ops, ∀ d, o = Op.setDirection d → D d) → P g →
      runOps fuel ops g = Except.ok g1 → P g1 := by
  induction ops with
  | nil =>
    intro g g1 _ hP hr
    cases hr
    exact hP
  | cons o ops ih =>
    intro g g1 hD hP hr
    simp only [runOps] at hr
    cases hs : o.run fuel g with
    | error e => rw [hs] at hr; cases hr
    | ok g2 =>
      rw [hs] at hr
      exact ih g2 g1 (fun o1 h1 => hD o1 (List.mem_cons_of_mem _ h1))
        (run_preserves P D hinit hstate hacc hspeed hnext hstep fuel o g g2
          (hD o (List.mem_cons_self _ _)) hP hs) hr

/-- A step that returns either keeps the phase, its candidate head being inside the grid and
not blocked, or ends in phase `Over`, its candidate head being off the grid or blocked. -/
theorem step_state (g g1 : Game) (hstep : step g = Except.ok g1) :
    ∃ head, g.snake.getLast? = some head ∧
      ((g1.state = g.state ∧ ¬ offGrid (candidate (entered g) head) ∧
          blocked (entered g) (candidate (entered g) head) = false) ∨
        (g1.state = State.Over ∧ (offGrid (candidate (entered g) head) ∨
          blocked (entered g) (candidate (entered g) head) = true))) := by
  cases hl : g.snake.getLast? with
  | none =>
    have hl2 : (entered g).snake.getLast? = none := by rw [entered_eq]; exact hl
    unfold step at hstep
    simp only [hl2] at hstep
    cases hstep
  | some head =>
    obtain ⟨t, r, hs⟩ := exists_cons_of_getLast? g.snake head hl
    rw [step_eq g t head r hs hl] at hstep
    refine ⟨head, rfl, ?_⟩
    split_ifs at hstep with h1 h2
    · right
      refine ⟨?_, h1⟩
      rw [← Except.ok.inj hstep, gameOver_eq]
    · left
      obtain ⟨f, rd, hp⟩ := placeFood_frame (addScore (pushHead (entered g)
        (candidate (entered g) head)))
      refine ⟨?_, fun h => h1 (Or.inl h), by simpa using fun h => h1 (Or.inr h)⟩
      rw [← Except.ok.inj hstep, hp, addScore_eq, entered_eq]
      rfl
    · left
      refine ⟨?_, fun h => h1 (Or.inl h), by simpa using fun h => h1 (Or.inr h)⟩
      rw [← Except.ok.inj hstep, entered_eq]

/-- The method `start` always ends in phase `Running`. -/
theorem start_state (g : Game) : (start g).state = State.Running := by
  unfold start
  split_ifs with h1 h2
  · exact h1
  · rfl
  · rfl

/-- The loop of `tick` keeps the phase within `Running` and `Over`. -/
theorem tickLoop_state (fuel : Nat) (g g1 : Game)
    (h : g.state = State.Running ∨ g.state = State.Over)
    (hr : tickLoop fuel g = Except.ok g1) :
    g1.state = State.Running ∨ g1.state = State.Over := by
  refine tickLoop_preserves (fun h => h.state = State.Running ∨ h.state = State.Over)
    ?_ (fun _ _ hP => hP) fuel g g1 h hr
  intro a b hP hs
  obtain ⟨head, _, hcase⟩ := step_state a b hs
  rcases hcase with ⟨hsame, _⟩ | ⟨hover, _⟩
  · rw [hsame]; exact hP
  · exact Or.inr hover

/-- C13: the phase transitions.  `start` leaves a Running state unchanged, sets Ready and
Paused to Running and, in Over, runs `init` and then sets Running; `pause` sets Running to
Paused and leaves every other state unchanged; `toggle` is `pause` in Running and `start`
otherwise; `restart` ends in Ready; `tick` returns a state that is not Running unchanged and
from Running ends in Running or Over (and returns, when the interval is positive, the
accumulator and the elapsed time non-negative, the snake non-empty and the fuel
sufficient).  An operation that enters Over from another phase is a `tick` on a Running
state, and a step changes the phase only to Over and only when its candidate head is off
the grid or blocked. -/
theorem phase_transitions (g : Game) (fuel : Nat) (dt : ℚ) :
    (g.state = State.Running → start g = g) ∧
    (g.state = State.Ready ∨ g.state = State.Paused →
      start g = { g with state := State.Running }) ∧
    (g.state = State.Over → start g = { init g with state := State.Running }) ∧
    (start g).state = State.Running ∧
    (g.state = State.Running → pause g = { g with state := State.Paused }) ∧
    (g.state ≠ State.Running → pause g = g) ∧
    (g.state = State.Running → toggle g = pause g) ∧
    (g.state ≠ State.Running → toggle g = start g) ∧
    (restart g).state = State.Ready ∧
    (g.state ≠ State.Running → tick fuel dt g = Except.ok g) ∧
    (g.state = State.Running → ∀ g1, tick fuel dt g = Except.ok g1 →
      g1.state = State.Running ∨ g1.state = State.Over) ∧
    (g.state = State.Running → 0 < g.interval → 0 ≤ g.acc → 0 ≤ dt → g.snake ≠ [] →
      ⌊(g.acc + dt) / g.interval⌋₊ ≤ fuel →
      ∃ g1, tick fuel dt g = Except.ok g1 ∧
        (g1.state = State.Running ∨ g1.state = State.Over)) ∧
    (∀ (o : Op) (g1 : Game), o.run fuel g = Except.ok g1 → g1.state = State.Over →
      g.state ≠ State.Over → g.state = State.Running ∧ ∃ dt1, o = Op.tick dt1) ∧
    (∀ g1 : Game, step g = Except.ok g1 → g1.state ≠ g.state →
      g1.state = State.Over ∧ ∃ head, g.snake.getLast? = some head ∧
        (offGrid (candidate (entered g) head) ∨
          blocked (entered g) (candidate (entered g) head) = true)) := by
  have htick : g.state = State.Running → ∀ g1, tick fuel dt g = Except.ok g1 →
      g1.state = State.Running ∨ g1.state = State.Over := by
    intro hrun g1 hr
    unfold tick at hr
    rw [if_neg (not_not.mpr hrun)] at hr
    exact tickLoop_state fuel { g with acc := g.acc + dt } g1 (Or.inl hrun) hr
  refine ⟨?_, ?_, ?_, start_state g, ?_, ?_, ?_, ?_, ?_, ?_, htick, ?_, ?_, ?_⟩
  · intro h; unfold start; rw [if_pos h]
  · intro h
    have h1 : g.state ≠ State.Running := by rcases h with h | h <;> rw [h] <;> decide
    have h2 : g.state ≠ State.Over := by rcases h with h | h <;> rw [h] <;> decide
    unfold start
    rw [if_neg h1]
    simp only [if_neg h2]
  · intro h
    have h1 : g.state ≠ State.Running := by rw [h]; decide
    unfold start
    rw [if_neg h1]
    simp only [if_pos h]
  · intro h; unfold pause; rw [if_neg (not_not.mpr h)]
  · intro h; unfold pause; rw [if_pos h]
  · intro h; unfold toggle; rw [if_pos h]
  · intro h; unfold toggle; rw [if_neg h]
  · obtain ⟨f, r, h⟩ := restart_eq g
    rw [h]
  · intro h; unfold tick; rw [if_pos h]
  · intro hrun hI ha hdt hne hfuel
    have hx : 0 ≤ (g.acc + dt) / g.interval := div_nonneg (add_nonneg ha hdt) hI.le
    obtain ⟨g1, hloop, _⟩ :=
      tickLoop_spec ⌊(g.acc + dt) / g.interval⌋₊ fuel { g with acc := g.acc + dt } hfuel hI
        ((le_div_iff₀ hI).1 (Nat.floor_le hx)) ((div_lt_iff₀ hI).1 (Nat.lt_floor_add_one _)) hne
    have hr : tick fuel dt g = Except.ok g1 := by
      unfold tick
      rw [if_neg (not_not.mpr hrun)]
      exact hloop
    exact ⟨g1, hr, htick hrun g1 hr⟩
  · intro o g1 hr hover hnot
    cases o with
    | start =>
      cases hr
      rw [start_state] at hover
      cases hover
    | pause =>
      cases hr
      unfold pause at hover
      split_ifs at hover with h1
      exact absurd hover hnot
    | toggle =>
      cases hr
      unfold toggle at hover
      split_ifs at hover with h1
      · unfold pause at hover
        rw [if_neg (not_not.mpr h1)] at hover
        cases hover
      · rw [start_state] at hover
        cases hover
    | restart =>
      cases hr
      obtain ⟨f, r, h⟩ := restart_eq g
      rw [h] at hover
      cases hover
    | setDirection d =>
      cases hr
      unfold setDirection at hover
      split_ifs at hover with h1
      · exact absurd hover hnot
      · exact absurd hover hnot
    | setSpeed v =>
      cases hr
      exact absurd hover hnot
    | tick dt1 =>
      refine ⟨?_, dt1, rfl⟩
      by_contra hne
      simp only [Op.run, tick, if_pos hne] at hr
      cases hr
      exact hnot hover
  · intro g1 hs hchange
    obtain ⟨head, hhead, hcase⟩ := step_state g g1 hs
    rcases hcase with ⟨hsame, _⟩ | ⟨hover, hcol⟩
    · exact absurd hsame hchange
    · exact ⟨hover, head, hhead, hcol⟩

/-- Witness of C13: the fresh Running game is paused by `pause` and by `toggle`, left alone
by `start`, and a `tick` of 250 ms returns it Running or Over. -/
theorem phase_transitions_witness :
    freshRunning.state = State.Running ∧ start freshRunning = freshRunning ∧
      pause freshRunning = { freshRunning with state := State.Paused } ∧
      toggle freshRunning = pause freshRunning ∧
      (restart freshRunning).state = State.Ready ∧
      ∃ g1, tick 2 250 freshRunning = Except.ok g1 ∧
        (g1.state = State.Running ∨ g1.state = State.Over) := by
  have h : freshRunning.state = State.Running ∧ 0 < freshRunning.interval ∧
      0 ≤ freshRunning.acc ∧ (0 : ℚ) ≤ 250 ∧ freshRunning.snake ≠ [] ∧
      ⌊(freshRunning.acc + 250) / freshRunning.interval⌋₊ ≤ 2 := by decide!
  have ht := phase_transitions freshRunning 2 250
  exact ⟨h.1, ht.1 h.1, ht.2.2.2.2.1 h.1, ht.2.2.2.2.2.2.1 h.1, ht.2.2.2.2.2.2.2.2.1,
    ht.2.2.2.2.2.2.2.2.2.2.2.1 h.1 h.2.1 h.2.2.1 h.2.2.2.1 h.2.2.2.2.1 h.2.2.2.2.2⟩

/-- A step that returns leaves score and high score alone, or adds ten points and lifts the
high score to the new score when that is larger. -/
theorem step_scores (g g1 : Game) (hstep : step g = Except.ok g1) :
    (g1.score = g.score ∧ g1.highScore = g.highScore) ∨
    (g1.score = g.score + 10 ∧
      g1.highScore = if g.score + 10 > g.highScore then g.score + 10 else g.highScore) := by
  cases hl : g.snake.getLast? with
  | none =>
    have hl2 : (entered g).snake.getLast? = none := by rw [entered_eq]; exact hl
    unfold step at hstep
    simp only [hl2] at hstep
    cases hstep
  | some head =>
    obtain ⟨t, r, hs⟩ := exists_cons_of_getLast? g.snake head hl
    rw [step_eq g t head r hs hl] at hstep
    split_ifs at hstep with h1 h2
    · left
      rw [← Except.ok.inj hstep, gameOver_eq, entered_eq]
      exact ⟨rfl, rfl⟩
    · right
      obtain ⟨f, rd, hp⟩ := placeFood_frame (addScore (pushHead (entered g)
        (candidate (entered g) head)))
      rw [← Except.ok.inj hstep, hp, addScore_eq, entered_eq]
      exact ⟨rfl, rfl⟩
    · left
      rw [← Except.ok.inj hstep, entered_eq]
      exact ⟨rfl, rfl⟩

/-- C16: `init` does not change the high score; no operation of the control surface, no
`tick` and no `step` lowers it; and in every state reached from a construction with a
non-negative high score the score is non-negative and at most the high score. -/
theorem highScore_never_decreases (g g1 : Game) (fuel : Nat) (o : Op) (ops : List Op)
    (speed : ℚ) (hs : Int) (rand : Nat → ℚ) :
    (init g).highScore = g.highScore ∧
    (o.run fuel g = Except.ok g1 → g.highScore ≤ g1.highScore) ∧
    (step g = Except.ok g1 → g.highScore ≤ g1.highScore) ∧
    (0 ≤ hs → runOps fuel ops (construct speed hs rand) = Except.ok g1 →
      0 ≤ g1.score ∧ g1.score ≤ g1.highScore) := by
  have hinit : ∀ a : Game, (init a).highScore = a.highScore := by
    intro a
    obtain ⟨f, r, h⟩ := init_eq a
    rw [h]
  have hmono : ∀ a b : Game, step a = Except.ok b → a.highScore ≤ b.highScore := by
    intro a b hab
    rcases step_scores a b hab with ⟨_, h2⟩ | ⟨_, h2⟩
    · rw [h2]
    · rw [h2]; split_ifs <;> omega
  refine ⟨hinit g, ?_, hmono g g1, ?_⟩
  · intro hr
    exact run_preserves (fun a => g.highScore ≤ a.highScore) (fun _ => True)
      (fun a ha => le_of_le_of_eq ha (hinit a).symm) (fun _ _ ha => ha) (fun _ _ ha => ha)
      (fun _ _ ha => ha) (fun _ _ _ _ ha => ha)
      (fun a b ha hab => le_trans ha (hmono a b hab)) fuel o g g1 (fun _ _ => trivial)
      (le_refl _) hr
  · intro hhs hr
    refine runOps_preserves (fun a => 0 ≤ a.score ∧ a.score ≤ a.highScore) (fun _ => True)
      ?_ (fun _ _ ha => ha) (fun _ _ ha => ha) (fun _ _ ha => ha) (fun _ _ _ _ ha => ha) ?_
      fuel ops (construct speed hs rand) g1 (fun _ _ _ _ => trivial) ?_ hr
    · intro a ha
      obtain ⟨f, r, h⟩ := init_eq a
      rw [h]
      exact ⟨le_refl _, le_trans ha.1 ha.2⟩
    · intro a b ha hab
      rcases step_scores a b hab with ⟨h1, h2⟩ | ⟨h1, h2⟩
      · rw [h1, h2]; exact ha
      · rw [h1, h2]
        obtain ⟨ha1, ha2⟩ := ha
        split_ifs <;> constructor <;> omega
    · obtain ⟨f, r, h⟩ := init_eq
        { state := State.Ready, speed := speed, interval := 1000 / speed, acc := 0,
          snake := [], dir := ⟨1, 0⟩, nextDir := ⟨1, 0⟩, occupy := [], food := ⟨10, 10⟩,
          score := 0, highScore := hs, rand := rand, calls := [] }
      unfold construct
      rw [h]
      exact ⟨le_refl _, hhs⟩

/-- Witness of C16: the stalled game of seventeen steps, constructed with high score 0. -/
theorem highScore_never_decreases_witness :
    ∃ g1 : Game, runOps 17 stallOps (construct 10 0 oneFoodAhead) = Except.ok g1 ∧
      (0 : Int) ≤ 0 ∧ 0 ≤ g1.score ∧ g1.score ≤ g1.highScore := by
  have hv : (view (runOps 17 stallOps (construct 10 0 oneFoodAhead))).map
      (fun v => v.2.2.1) = some State.Over := by
    decide!
  cases hr : runOps 17 stallOps (construct 10 0 oneFoodAhead) with
  | error e => rw [hr] at hv; simp [view] at hv
  | ok g1 =>
    exact ⟨g1, rfl, le_refl _,
      (highScore_never_decreases g1 g1 17 Op.start stallOps 10 0 oneFoodAhead).2.2.2
        (le_refl _) hr⟩

/-- A unit direction is not its own opposite. -/
theorem unit_not_self_opposite (d : Vec) (hd : d ∈ unitDirs) : isOpposite d d = false := by
  simp only [unitDirs, List.mem_cons, List.mem_singleton, List.not_mem_nil, or_false] at hd
  rcases hd with rfl | rfl | rfl | rfl <;> decide

/-- Dropping the first cell of a linked list leaves it linked. -/
theorem linked_tail (t : Vec) (r : List Vec) (h : Linked (t :: r)) : Linked r := by
  cases r with
  | nil => trivial
  | cons b rest => exact h.2

/-- Appending to a linked list a cell adjacent to its last cell leaves it linked. -/
theorem linked_append (c : Vec) :
    ∀ l : List Vec, Linked l → (∀ h, l.getLast? = some h → adjacent h c) →
      Linked (l ++ [c]) := by
  intro l
  induction l with
  | nil => intro _ _; trivial
  | cons a rest ih =>
    intro hl hlast
    cases rest with
    | nil =>
      exact ⟨hlast a rfl, trivial⟩
    | cons b rest2 =>
      refine ⟨hl.1, ih hl.2 ?_⟩
      intro h hh
      exact hlast h (by rw [List.getLast?_cons_cons]; exact hh)

/-- The candidate head is adjacent to the head when the direction is a unit vector. -/
theorem adjacent_candidate (g : Game) (head : Vec) (hd : g.dir ∈ unitDirs) :
    adjacent head (candidate g head) := by
  unfold adjacent candidate
  have : Vec.mk (head.x + g.dir.x - head.x) (head.y + g.dir.y - head.y) = g.dir := by
    rcases hdir : g.dir with ⟨dx, dy⟩
    simp
  rw [this]
  exact hd

/-- The state left by `init` is well formed. -/
theorem init_wellFormed (g : Game) : WellFormed (init g) := by
  obtain ⟨f, r, h⟩ := init_eq g
  rw [h]
  refine ⟨?_, ?_, ?_, by simp, ?_, ?_⟩
  · show Vec.mk 1 0 ∈ unitDirs
    decide
  · show Vec.mk 1 0 ∈ unitDirs
    decide
  · show isOpposite (Vec.mk 1 0) (Vec.mk 1 0) = false
    decide
  · intro c hc
    simp only [List.mem_cons, List.mem_singleton, List.not_mem_nil, or_false] at hc
    rcases hc with rfl | rfl | rfl | rfl <;> decide
  · refine ⟨?_, ?_, ?_, trivial⟩ <;> decide

/-- A step that returns keeps the state well formed. -/
theorem step_wellFormed (g g1 : Game) (hw : WellFormed g) (hstep : step g = Except.ok g1) :
    WellFormed g1 := by
  obtain ⟨hdir, hnext, hopp, hne, hgrid, hlink⟩ := hw
  have hent : entered g = { g with
      dir := g.nextDir,
      calls := g.calls ++ [Call.step g.state] } := by
    rw [entered_eq, hopp]
    rfl
  have hself := unit_not_self_opposite g.nextDir hnext
  cases hl : g.snake.getLast? with
  | none => exact absurd (List.getLast?_eq_none_iff.1 hl) hne
  | some head =>
    obtain ⟨t, r, hs⟩ := exists_cons_of_getLast? g.snake head hl
    have hadj : adjacent head (candidate (entered g) head) :=
      adjacent_candidate (entered g) head (by rw [hent]; exact hnext)
    rw [step_eq g t head r hs hl] at hstep
    split_ifs at hstep with h1 h2
    · rw [← Except.ok.inj hstep, gameOver_eq, hent]
      exact ⟨hnext, hnext, hself, hne, hgrid, hlink⟩
    · obtain ⟨f, rd, hp⟩ := placeFood_frame (addScore (pushHead (entered g)
        (candidate (entered g) head)))
      have hsn : (pushHead (entered g) (candidate (entered g) head)).snake =
          g.snake ++ [candidate (entered g) head] := by
        rw [pushHead, entered_snake]
      rw [← Except.ok.inj hstep, hp, addScore_eq]
      refine ⟨?_, ?_, ?_, ?_, ?_, ?_⟩
      · show (entered g).dir ∈ unitDirs
        rw [hent]; exact hnext
      · show (entered g).nextDir ∈ unitDirs
        rw [hent]; exact hnext
      · show isOpposite (entered g).dir (entered g).nextDir = false
        rw [hent]; exact hself
      · show (pushHead (entered g) (candidate (entered g) head)).snake ≠ []
        rw [hsn]; simp
      · show ∀ c ∈ (pushHead (entered g) (candidate (entered g) head)).snake, ¬ offGrid c
        rw [hsn]
        intro c hc
        rcases List.mem_append.1 hc with hc | hc
        · exact hgrid c hc
        · rw [List.mem_singleton.1 hc]
          exact fun h => h1 (Or.inl h)
      · show Linked (pushHead (entered g) (candidate (entered g) head)).snake
        rw [hsn]
        exact linked_append _ g.snake hlink (fun h hh => by
          rw [hl] at hh; cases hh; exact hadj)
    · rw [← Except.ok.inj hstep]
      have hlink2 : Linked (g.snake ++ [candidate (entered g) head]) :=
        linked_append _ g.snake hlink (fun h hh => by
          rw [hl] at hh; cases hh; exact hadj)
      rw [hs] at hlink2 hgrid
      refine ⟨?_, ?_, ?_, ?_, ?_, ?_⟩
      · show (entered g).dir ∈ unitDirs
        rw [hent]; exact hnext
      · show (entered g).nextDir ∈ unitDirs
        rw [hent]; exact hnext
      · show isOpposite (entered g).dir (entered g).nextDir = false
        rw [hent]; exact hself
      · show r ++ [candidate (entered g) head] ≠ []
        simp
      · show ∀ c ∈ r ++ [candidate (entered g) head], ¬ offGrid c
        intro c hc
        rcases List.mem_append.1 hc with hc | hc
        · exact hgrid c (List.mem_cons_of_mem _ hc)
        · rw [List.mem_singleton.1 hc]
          exact fun h => h1 (Or.inl h)
      · show Linked (r ++ [candidate (entered g) head])
        exact linked_tail t _ hlink2

/-- Every reachable state is well formed. -/
theorem reachable_wellFormed (g : Game) (hg : Reachable g) : WellFormed g := by
  induction hg with
  | construct speed highScore rand _ => exact init_wellFormed _
  | op fuel o g g1 _ ho hr ih =>
    refine run_preserves WellFormed (fun d => d ∈ unitDirs) (fun a _ => init_wellFormed a)
      (fun _ _ ha => ha) (fun _ _ ha => ha) (fun _ _ ha => ha) ?_ step_wellFormed
      fuel o g g1 ?_ ih hr
    · intro a d hd hopp ha
      exact ⟨ha.1, hd, hopp, ha.2.2.2⟩
    · intro d hd
      rw [hd] at ho
      exact ho

/-- C19: in every reachable state (directions given to `setDirection` being unit vectors)
the pending direction is not the opposite of the current one, so the guard at the start of
`step` commits it; the step returns with the current direction equal to the pending one, and
that direction is not the opposite of the direction of the step before. -/
theorem pending_never_reverses (g : Game) (hg : Reachable g) :
    isOpposite g.dir g.nextDir = false ∧ (commitDir g).dir = g.nextDir ∧
      ∃ g1, step g = Except.ok g1 ∧ g1.dir = g.nextDir ∧ g1.dir = g1.nextDir ∧
        isOpposite g.dir g1.dir = false := by
  obtain ⟨_, _, hopp, hne, _, _⟩ := reachable_wellFormed g hg
  obtain ⟨g1, hstep, hdir, hnext⟩ := step_dir g hne
  have hent : (entered g).dir = g.nextDir := by
    rw [entered_eq, hopp]
    rfl
  rw [hent] at hdir
  refine ⟨hopp, ?_, g1, hstep, hdir, by rw [hdir, hnext], by rw [hdir]; exact hopp⟩
  unfold commitDir
  rw [hopp]
  rfl

/-- Witness of C19: the state the constructor leaves. -/
theorem pending_never_reverses_witness :
    Reachable freshReady ∧ isOpposite freshReady.dir freshReady.nextDir = false ∧
      (commitDir freshReady).dir = freshReady.nextDir ∧
      ∃ g1, step freshReady = Except.ok g1 ∧ g1.dir = freshReady.nextDir ∧
        g1.dir = g1.nextDir ∧ isOpposite freshReady.dir g1.dir = false :=
  have h : Reachable freshReady := Reachable.construct 10 0 (streamOf []) (by norm_num)
  ⟨h, pending_never_reverses freshReady h⟩

/-- C20: in every reachable state (directions given to `setDirection` being unit vectors)
the snake is non-empty, each of its cells has both coordinates in `[0, 21)`, and every two
consecutive cells are one unit step apart along one axis; so the snake has a last cell, the
head read by `step`, and `step` returns. -/
theorem snake_is_a_path (g : Game) (hg : Reachable g) :
    g.snake ≠ [] ∧
      (∀ c ∈ g.snake, 0 ≤ c.x ∧ c.x < 21 ∧ 0 ≤ c.y ∧ c.y < 21) ∧
      Linked g.snake ∧
      (∃ head, g.snake.getLast? = some head) ∧
      ∃ g1, step g = Except.ok g1 := by
  obtain ⟨_, _, _, hne, hgrid, hlink⟩ := reachable_wellFormed g hg
  refine ⟨hne, ?_, hlink, ⟨g.snake.getLast hne, List.getLast?_eq_getLast _ hne⟩, ?_⟩
  · intro c hc
    have h := hgrid c hc
    simp only [offGrid, GRID, not_or, not_lt, ge_iff_le, not_le] at h
    exact ⟨h.1, h.2.1, h.2.2.1, h.2.2.2⟩
  · obtain ⟨g1, hstep, _⟩ := step_frame g hne
    exact ⟨g1, hstep⟩

/-- Witness of C20: the state the constructor leaves. -/
theorem snake_is_a_path_witness :
    Reachable freshReady ∧ freshReady.snake ≠ [] ∧
      (∀ c ∈ freshReady.snake, 0 ≤ c.x ∧ c.x < 21 ∧ 0 ≤ c.y ∧ c.y < 21) ∧
      Linked freshReady.snake ∧
      (∃ head, freshReady.snake.getLast? = some head) ∧
      ∃ g1, step freshReady = Except.ok g1 :=
  have h : Reachable freshReady := Reachable.construct 10 0 (streamOf []) (by norm_num)
  ⟨h, snake_is_a_path freshReady h⟩

/-- The loop of `placeFood` does not read the accumulator. -/
theorem placeFoodLoop_acc (k : Nat) :
    ∀ (g : Game) (x : ℚ),
      placeFoodLoop k { g with acc := x } = { placeFoodLoop k g with acc := x } := by
  induction k with
  | zero => intro g x; rfl
  | succ k ih =>
    intro g x
    rw [placeFoodLoop_succ, placeFoodLoop_succ]
    split_ifs with h
    · exact ih { g with food := sampledCell g.rand 0, rand := fun n => g.rand (n + 2) } x
    · rfl

/-- The method `step` does not read the accumulator. -/
theorem step_acc (g : Game) (x : ℚ) : step { g with acc := x } = withAcc x (step g) := by
  have he : entered { g with acc := x } = { entered g with acc := x } := by
    unfold entered commitDir
    split <;> rfl
  unfold step
  simp only [he]
  generalize entered g = e
  cases hl : e.snake.getLast? with
  | none => rfl
  | some head =>
    simp only []
    by_cases h1 : offGrid (candidate e head)
    · have h1x : offGrid (candidate { e with acc := x } head) := h1
      rw [if_pos h1, if_pos h1x]
      rw [gameOver_eq, gameOver_eq]
      rfl
    · have h1x : ¬ offGrid (candidate { e with acc := x } head) := h1
      rw [if_neg h1, if_neg h1x]
      by_cases h2 : blocked e (candidate e head) = true
      · have h2x : blocked { e with acc := x } (candidate { e with acc := x } head) = true :=
          h2
        rw [if_pos h2, if_pos h2x]
        rw [gameOver_eq, gameOver_eq]
        rfl
      · have h2x : ¬ blocked { e with acc := x } (candidate { e with acc := x } head) =
            true := h2
        rw [if_neg h2, if_neg h2x]
        by_cases h3 : willGrow e (candidate e head) = true
        · have h3x : willGrow { e with acc := x } (candidate { e with acc := x } head) =
              true := h3
          rw [if_pos h3, if_pos h3x]
          have hadd : addScore (pushHead { e with acc := x }
              (candidate { e with acc := x } head)) =
              { addScore (pushHead e (candidate e head)) with acc := x } := by
            rw [addScore_eq, addScore_eq]
            rfl
          rw [hadd]
          unfold placeFood
          rw [placeFoodLoop_acc]
          rfl
        · have h3x : ¬ willGrow { e with acc := x } (candidate { e with acc := x } head) =
              true := h3
          rw [if_neg h3, if_neg h3x]
          show (match e.snake ++ [candidate e head] with
            | [] => Except.error Fault.typeError
            | tail :: rest => _) = withAcc x (match e.snake ++ [candidate e head] with
            | [] => Except.error Fault.typeError
            | tail :: rest => _)
          cases e.snake ++ [candidate e head] with
          | nil => rfl
          | cons t r => rfl

/-- Writing the accumulator twice keeps the last value. -/
theorem withAcc_withAcc (x y : ℚ) (r : Except Fault Game) :
    withAcc x (withAcc y r) = withAcc x r := by
  cases r <;> rfl

/-- Consecutive steps do not read the accumulator. -/
theorem stepN_acc (n : Nat) :
    ∀ (g : Game) (x : ℚ), stepN n { g with acc := x } = withAcc x (stepN n g) := by
  induction n with
  | zero => intro g x; rfl
  | succ n ih =>
    intro g x
    simp only [stepN]
    rw [step_acc]
    cases step g with
    | error e => rfl
    | ok g1 => exact ih g1 x

/-- Steps taken in two batches are the steps taken in one. -/
theorem stepN_add (n1 n2 : Nat) :
    ∀ g : Game, stepN (n1 + n2) g =
      match stepN n1 g with
      | Except.ok g1 => stepN n2 g1
      | Except.error e => Except.error e := by
  induction n1 with
  | zero => intro g; rw [Nat.zero_add]; rfl
  | succ n1 ih =>
    intro g
    rw [Nat.succ_add]
    simp only [stepN]
    cases step g with
    | error e => rfl
    | ok g1 => exact ih g1

/-- A step that returns leaves the accumulator and the interval alone. -/
theorem step_timing (g g1 : Game) (hstep : step g = Except.ok g1) :
    g1.acc = g.acc ∧ g1.interval = g.interval := by
  have hne : g.snake ≠ [] := by
    obtain ⟨head, hh, _⟩ := step_state g g1 hstep
    intro h
    rw [h] at hh
    cases hh
  obtain ⟨g2, h2, hacc, hint, _⟩ := step_frame g hne
  rw [hstep] at h2
  cases h2
  exact ⟨hacc, hint⟩

/-- The loop of `tick` on an accumulator in `[n * interval, (n + 1) * interval)` is `n`
steps followed by the write of the remainder. -/
theorem tickLoop_eq_stepN (n : Nat) :
    ∀ (fuel : Nat) (g : Game), n ≤ fuel → 0 < g.interval → (n : ℚ) * g.interval ≤ g.acc →
      g.acc < ((n : ℚ) + 1) * g.interval →
      tickLoop fuel g = withAcc (g.acc - (n : ℚ) * g.interval) (stepN n g) := by
  induction n with
  | zero =>
    intro fuel g _ _ _ hlt
    have hno : ¬ g.acc ≥ g.interval := by
      simp only [Nat.cast_zero, zero_add, one_mul] at hlt
      exact not_le.mpr hlt
    unfold tickLoop
    rw [if_neg hno]
    simp only [stepN, withAcc, Nat.cast_zero, zero_mul, sub_zero]
  | succ n ih =>
    intro fuel g hfuel hI hle hlt
    obtain ⟨m, rfl⟩ : ∃ m, fuel = m + 1 := ⟨fuel - 1, by omega⟩
    have hge : g.acc ≥ g.interval := by
      have h0 : (0 : ℚ) ≤ (n : ℚ) * g.interval := mul_nonneg (Nat.cast_nonneg n) hI.le
      push_cast at hle
      linarith
    rw [tickLoop]
    simp only [hge, if_true, stepN]
    cases hs : step g with
    | error e => rfl
    | ok g1 =>
      obtain ⟨hacc, hint⟩ := step_timing g g1 hs
      simp only []
      rw [ih m { g1 with acc := g1.acc - g1.interval } (by omega)
        (by simpa [hint] using hI)
        (by simp only [hacc, hint]; push_cast at hle; linarith)
        (by simp only [hacc, hint]; push_cast at hlt; linarith)]
      rw [stepN_acc, withAcc_withAcc]
      simp only [hacc, hint]
      congr 1
      push_cast
      ring

/-- Frame-rate independence in exact arithmetic: in a Running state with a positive
interval, a non-negative accumulator and a non-empty snake, the exact `tick(dt1)` followed
by `tick(dt2)` (both non-negative) returns, on the same random stream, the very state that a
single `tick(dt1 + dt2)` returns, whenever the first tick ends Running. -/
theorem tick_is_frame_rate_independent (g : Game) (dt1 dt2 : ℚ) (fuel : Nat)
    (hrun : g.state = State.Running) (hI : 0 < g.interval) (ha : 0 ≤ g.acc)
    (h1 : 0 ≤ dt1) (h2 : 0 ≤ dt2) (hne : g.snake ≠ [])
    (hfuel : ⌊(g.acc + (dt1 + dt2)) / g.interval⌋₊ ≤ fuel) :
    ∃ g1, tick fuel dt1 g = Except.ok g1 ∧
      (g1.state = State.Running →
        ∃ g2, tick fuel dt2 g1 = Except.ok g2 ∧ tick fuel (dt1 + dt2) g = Except.ok g2) := by
  -- the steps owed after the first tick
  have hx1 : 0 ≤ (g.acc + dt1) / g.interval := div_nonneg (add_nonneg ha h1) hI.le
  have hlo1 : (⌊(g.acc + dt1) / g.interval⌋₊ : ℚ) * g.interval ≤ g.acc + dt1 :=
    (le_div_iff₀ hI).1 (Nat.floor_le hx1)
  have hhi1 : g.acc + dt1 < ((⌊(g.acc + dt1) / g.interval⌋₊ : ℚ) + 1) * g.interval :=
    (div_lt_iff₀ hI).1 (Nat.lt_floor_add_one _)
  generalize hn1 : ⌊(g.acc + dt1) / g.interval⌋₊ = n1 at hlo1 hhi1
  -- the steps owed after the second tick
  have hrem : 0 ≤ g.acc + dt1 - (n1 : ℚ) * g.interval := by linarith
  have hx2 : 0 ≤ (g.acc + dt1 - (n1 : ℚ) * g.interval + dt2) / g.interval :=
    div_nonneg (add_nonneg hrem h2) hI.le
  have hlo2 : (⌊(g.acc + dt1 - (n1 : ℚ) * g.interval + dt2) / g.interval⌋₊ : ℚ) *
      g.interval ≤ g.acc + dt1 - (n1 : ℚ) * g.interval + dt2 :=
    (le_div_iff₀ hI).1 (Nat.floor_le hx2)
  have hhi2 : g.acc + dt1 - (n1 : ℚ) * g.interval + dt2 <
      ((⌊(g.acc + dt1 - (n1 : ℚ) * g.interval + dt2) / g.interval⌋₊ : ℚ) + 1) *
        g.interval :=
    (div_lt_iff₀ hI).1 (Nat.lt_floor_add_one _)
  generalize hn2 : ⌊(g.acc + dt1 - (n1 : ℚ) * g.interval + dt2) / g.interval⌋₊ = n2
    at hlo2 hhi2
  -- the fuel covers both
  have hsum : n1 + n2 ≤ fuel := by
    refine le_trans (Nat.le_floor ?_) hfuel
    rw [le_div_iff₀ hI]
    push_cast
    linarith
  -- the three ticks as batches of steps
  have t1 : tick fuel dt1 g = withAcc (g.acc + dt1 - (n1 : ℚ) * g.interval) (stepN n1 g) := by
    unfold tick
    rw [if_neg (not_not.mpr hrun),
      tickLoop_eq_stepN n1 fuel { g with acc := g.acc + dt1 } (by omega) hI hlo1 hhi1,
      stepN_acc, withAcc_withAcc]
  have t3 : tick fuel (dt1 + dt2) g =
      withAcc (g.acc + (dt1 + dt2) - ((n1 + n2 : Nat) : ℚ) * g.interval)
        (stepN (n1 + n2) g) := by
    unfold tick
    rw [if_neg (not_not.mpr hrun),
      tickLoop_eq_stepN (n1 + n2) fuel { g with acc := g.acc + (dt1 + dt2) } hsum hI
        (by push_cast; linarith) (by push_cast; linarith),
      stepN_acc, withAcc_withAcc]
  obtain ⟨g3, h3, _⟩ := tickLoop_spec (n1 + n2) fuel { g with acc := g.acc + (dt1 + dt2) }
    hsum hI (by push_cast; linarith) (by push_cast; linarith) hne
  have h3t : tick fuel (dt1 + dt2) g = Except.ok g3 := by
    unfold tick
    rw [if_neg (not_not.mpr hrun)]
    exact h3
  cases hs1 : stepN n1 g with
  | error e =>
    rw [t3, stepN_add, hs1] at h3t
    cases h3t
  | ok h =>
    rw [hs1] at t1
    refine ⟨_, t1, ?_⟩
    intro hrun1
    refine ⟨g3, ?_, h3t⟩
    have hint : h.interval = g.interval := by
      have hkeep := tickLoop_preserves (fun a => a.interval = g.interval)
        (fun a b ha hab => (step_timing a b hab).2.trans ha) (fun _ _ ha => ha)
        fuel { g with acc := g.acc + dt1 }
        { h with acc := g.acc + dt1 - (n1 : ℚ) * g.interval } rfl
      apply hkeep
      rw [tickLoop_eq_stepN n1 fuel { g with acc := g.acc + dt1 } (by omega) hI hlo1 hhi1,
        stepN_acc, withAcc_withAcc, hs1]
      rfl
    rw [← h3t, t3, stepN_add, hs1]
    unfold tick
    rw [if_neg (not_not.mpr hrun1)]
    rw [tickLoop_eq_stepN n2 fuel _ (by omega) (by simpa [hint] using hI)
      (by simp only [hint]; exact hlo2) (by simp only [hint]; exact hhi2)]
    rw [stepN_acc, withAcc_withAcc, stepN_acc, withAcc_withAcc]
    simp only [hint]
    congr 1
    push_cast
    ring

/-- Exact frame-rate independence on the fresh Running game at interval 100, with 150 ms
and then 100 ms against 250 ms at once. -/
theorem tick_is_frame_rate_independent_witness :
    (freshRunning.state = State.Running ∧ 0 < freshRunning.interval ∧ 0 ≤ freshRunning.acc ∧
      (0 : ℚ) ≤ 150 ∧ (0 : ℚ) ≤ 100 ∧ freshRunning.snake ≠ [] ∧
      ⌊(freshRunning.acc + (150 + 100)) / freshRunning.interval⌋₊ ≤ 2) ∧
    ∃ g1 g2, tick 2 150 freshRunning = Except.ok g1 ∧ g1.state = State.Running ∧
      tick 2 100 g1 = Except.ok g2 ∧ tick 2 (150 + 100) freshRunning = Except.ok g2 := by
  have h : freshRunning.state = State.Running ∧ 0 < freshRunning.interval ∧
      0 ≤ freshRunning.acc ∧ (0 : ℚ) ≤ 150 ∧ (0 : ℚ) ≤ 100 ∧ freshRunning.snake ≠ [] ∧
      ⌊(freshRunning.acc + (150 + 100)) / freshRunning.interval⌋₊ ≤ 2 := by decide!
  have hv : (view (tick 2 150 freshRunning)).map (fun v => v.2.2.1) =
      some State.Running := by decide!
  obtain ⟨g1, hg1, hrest⟩ := tick_is_frame_rate_independent freshRunning 150 100 2
    h.1 h.2.1 h.2.2.1 h.2.2.2.1 h.2.2.2.2.1 h.2.2.2.2.2.1 h.2.2.2.2.2.2
  rw [hg1] at hv
  simp only [view, Option.map_some', Option.some.injEq] at hv
  obtain ⟨g2, hg2, hg3⟩ := hrest hv
  exact ⟨h, g1, g2, hg1, hv, hg2, hg3⟩

/-- Known values of binary64 rounding: the doubles written `0.1` and `1/3`, the quotients
`1000 / 7` and `1000 / 3` of `setSpeed`, ties going to the even significand at `2 ^ 53`,
the sign, the subnormal range, and a difference that is absorbed at `2 ^ 61`. -/
theorem roundDouble_values :
    roundDouble (1 / 10) = 3602879701896397 / 36028797018963968 ∧
      roundDouble (-1 / 10) = -(3602879701896397 / 36028797018963968) ∧
      roundDouble (1 / 3) = 6004799503160661 / 18014398509481984 ∧
      roundDouble (1000 / 7) = 5026338869833143 / 35184372088832 ∧
      roundDouble (1000 / 3) = 5864062014805333 / 17592186044416 ∧
      roundDouble (2 ^ 53 + 1) = 2 ^ 53 ∧
      roundDouble (2 ^ 53 + 3) = 2 ^ 53 + 4 ∧
      roundDouble (1 / 2 ^ 1075) = 0 ∧
      roundDouble (3 / 2 ^ 1075) = 1 / 2 ^ 1073 ∧
      roundDouble (2 ^ 61 - 100) = 2 ^ 61 ∧
      roundDouble 250 = 250 := by
  refine ⟨?_, ?_, ?_, ?_, ?_, ?_, ?_, ?_, ?_, ?_, ?_⟩ <;> decide!

/-- The loop of `tick` in binary64 arithmetic is the exact loop when none of the
subtractions it owes rounds. -/
theorem tickLoopDouble_eq_tickLoop (n : Nat) :
    ∀ (fuel : Nat) (g : Game), n ≤ fuel → 0 < g.interval → (n : ℚ) * g.interval ≤ g.acc →
      g.acc < ((n : ℚ) + 1) * g.interval → ExactRun g.acc g.interval n →
      tickLoopDouble fuel g = tickLoop fuel g := by
  induction n with
  | zero =>
    intro fuel g _ _ _ hlt _
    have hno : ¬ g.acc ≥ g.interval := by
      simp only [Nat.cast_zero, zero_add, one_mul] at hlt
      exact not_le.mpr hlt
    unfold tickLoopDouble tickLoop
    rw [if_neg hno, if_neg hno]
  | succ n ih =>
    intro fuel g hfuel hI hle hlt hex
    obtain ⟨m, rfl⟩ : ∃ m, fuel = m + 1 := ⟨fuel - 1, by omega⟩
    have hge : g.acc ≥ g.interval := by
      have h0 : (0 : ℚ) ≤ (n : ℚ) * g.interval := mul_nonneg (Nat.cast_nonneg n) hI.le
      push_cast at hle
      linarith
    rw [tickLoopDouble, tickLoop]
    simp only [hge, if_true]
    cases hs : step g with
    | error e => rfl
    | ok g1 =>
      obtain ⟨hacc, hint⟩ := step_timing g g1 hs
      have h0 : roundDouble (g1.acc - g1.interval) = g1.acc - g1.interval := by
        have h := (hex 0 (Nat.succ_pos n)).1
        simp only [Nat.cast_zero, zero_mul, sub_zero] at h
        rw [hacc, hint]
        exact h
      simp only [h0]
      refine ih m { g1 with acc := g1.acc - g1.interval } (by omega)
        (by simpa [hint] using hI)
        (by simp only [hacc, hint]; push_cast at hle; linarith)
        (by simp only [hacc, hint]; push_cast at hlt; linarith) ?_
      intro k hk
      have h := hex (k + 1) (Nat.succ_lt_succ hk)
      have harg : g.acc - ((k + 1 : Nat) : ℚ) * g.interval - g.interval =
          g1.acc - g1.interval - (k : ℚ) * g1.interval - g1.interval := by
        rw [hacc, hint]
        push_cast
        ring
      rw [harg] at h
      exact h

/-- The method `tick` in binary64 arithmetic is the exact `tick` when none of its
operations rounds. -/
theorem tickDouble_eq_tick (g : Game) (dt : ℚ) (fuel : Nat) (hI : 0 < g.interval)
    (hsum : 0 ≤ g.acc + dt) (hfuel : ⌊(g.acc + dt) / g.interval⌋₊ ≤ fuel)
    (hex : TickExact g dt) : tickDouble fuel dt g = tick fuel dt g := by
  unfold tickDouble tick
  split_ifs with hrun
  · rfl
  · rw [hex.1.1]
    have hx : 0 ≤ (g.acc + dt) / g.interval := div_nonneg hsum hI.le
    exact tickLoopDouble_eq_tickLoop ⌊(g.acc + dt) / g.interval⌋₊ fuel
      { g with acc := g.acc + dt } hfuel hI ((le_div_iff₀ hI).1 (Nat.floor_le hx))
      ((div_lt_iff₀ hI).1 (Nat.lt_floor_add_one _)) hex.2

/-- When the loop of `tick` returns, in binary64 arithmetic, the accumulator is below the
interval, and the interval is the one it started with. -/
theorem tickLoopDouble_exit :
    ∀ (fuel : Nat) (g g1 : Game), tickLoopDouble fuel g = Except.ok g1 →
      g1.acc < g1.interval ∧ g1.interval = g.interval := by
  intro fuel
  induction fuel with
  | zero =>
    intro g g1 hr
    unfold tickLoopDouble at hr
    split_ifs at hr with hge
    cases hr
    exact ⟨not_le.mp hge, rfl⟩
  | succ n ih =>
    intro g g1 hr
    unfold tickLoopDouble at hr
    split_ifs at hr with hge
    · cases hs : step g with
      | error e => rw [hs] at hr; cases hr
      | ok g2 =>
        rw [hs] at hr
        obtain ⟨h1, h2⟩ := ih _ g1 hr
        exact ⟨h1, h2.trans (step_timing g g2 hs).2⟩
    · cases hr
      exact ⟨not_le.mp hge, rfl⟩

/-- C3 (counterexample): in binary64 arithmetic the catch-up loop does not run
`floor((acc + dt) / interval)` steps.  After `setSpeed(3)` the interval is the double
333.3333333333333, below `1000 / 3`; with `acc = 0`, `tick(4000)` owes
`floor(4000 / interval) = 12` steps but the rounded subtractions leave
333.333333333333 after eleven, which is below the interval: the loop calls `step()` eleven
times.  And `tick(2.5 * interval)` runs two steps and leaves 166.66666666666663, which is
not `0.5 * interval`.  After `setSpeed(7)`, `tick(1000)` runs the six steps it owes but
leaves 142.8571428571427, which is not `1000 - 6 * interval`. -/
theorem tickDouble_rounding_drops_a_step :
    speedThree.state = State.Running ∧ speedThree.acc = 0 ∧ stepCount speedThree = 0 ∧
      speedThree.interval = 5864062014805333 / 17592186044416 ∧
      ⌊(speedThree.acc + 4000) / speedThree.interval⌋₊ = 12 ∧
      timing (tickDouble 12 4000 speedThree) =
        some (State.Running, 11, 5864062014805327 / 17592186044416,
          5864062014805333 / 17592186044416, [⟨13, 10⟩, ⟨14, 10⟩, ⟨15, 10⟩, ⟨16, 10⟩]) ∧
      (5864062014805327 / 17592186044416 : ℚ) ≠
        (speedThree.acc + 4000) - 12 * speedThree.interval ∧
      timing (tickDouble 2 (roundDouble (5 / 2 * speedThree.interval)) speedThree) =
        some (State.Running, 2, 1466015503701333 / 8796093022208,
          5864062014805333 / 17592186044416, [⟨4, 10⟩, ⟨5, 10⟩, ⟨6, 10⟩, ⟨7, 10⟩]) ∧
      (1466015503701333 / 8796093022208 : ℚ) ≠ 1 / 2 * speedThree.interval ∧
      speedSeven.acc = 0 ∧ speedSeven.interval = 5026338869833143 / 35184372088832 ∧
      timing (tickDouble 7 1000 speedSeven) =
        some (State.Running, 6, 5026338869833137 / 35184372088832,
          5026338869833143 / 35184372088832, [⟨8, 10⟩, ⟨9, 10⟩, ⟨10, 10⟩, ⟨11, 10⟩]) ∧
      (5026338869833137 / 35184372088832 : ℚ) ≠
        (speedSeven.acc + 1000) - 6 * speedSeven.interval := by
  refine ⟨?_, ?_, ?_, ?_, ?_, ?_, ?_, ?_, ?_, ?_, ?_, ?_, ?_⟩ <;> decide!

/-- C3 (amended): in binary64 arithmetic, in a Running state with a positive interval, a
non-negative accumulator, a non-negative elapsed time and a non-empty snake, if neither the
sum `acc + dt` nor any of the `n = floor((acc + dt) / interval)` successive subtractions of
the interval rounds, `tick` returns as soon as the fuel covers `n` iterations, calls
`step()` exactly `n` times and leaves `acc + dt - n * interval` in the accumulator, which
lies in `[0, interval)`; with `acc = 0` and `dt = 2.5 * interval` that is two steps and half
an interval.  Whether or not an operation rounds, a `tick` that returns from a Running state
leaves the accumulator below the interval; in any other phase `tick` returns the state
unchanged. -/
theorem tickDouble_runs_floor_steps_when_exact (g : Game) (dt : ℚ) (fuel : Nat) :
    (g.state = State.Running → 0 < g.interval → 0 ≤ g.acc → 0 ≤ dt → g.snake ≠ [] →
      ⌊(g.acc + dt) / g.interval⌋₊ ≤ fuel → TickExact g dt →
      ∃ g1, tickDouble fuel dt g = Except.ok g1 ∧
        stepCount g1 = stepCount g + ⌊(g.acc + dt) / g.interval⌋₊ ∧
        g1.acc = (g.acc + dt) - (⌊(g.acc + dt) / g.interval⌋₊ : ℚ) * g.interval ∧
        0 ≤ g1.acc ∧ g1.acc < g.interval ∧
        (g.acc = 0 → dt = 5 / 2 * g.interval →
          stepCount g1 = stepCount g + 2 ∧ g1.acc = 1 / 2 * g.interval)) ∧
    (g.state = State.Running → ∀ g1, tickDouble fuel dt g = Except.ok g1 →
      g1.acc < g1.interval ∧ g1.interval = g.interval) ∧
    (g.state ≠ State.Running → tickDouble fuel dt g = Except.ok g) := by
  refine ⟨?_, ?_, ?_⟩
  · intro hrun hI ha hdt hne hfuel hex
    rw [tickDouble_eq_tick g dt fuel hI (add_nonneg ha hdt) hfuel hex]
    exact (tick_runs_floor_steps g dt fuel).1 hrun hI ha hdt hne hfuel
  · intro hrun g1 hr
    unfold tickDouble at hr
    rw [if_neg (not_not.mpr hrun)] at hr
    exact tickLoopDouble_exit fuel { g with acc := roundDouble (g.acc + dt) } g1 hr
  · intro hrun
    unfold tickDouble
    rw [if_pos hrun]

/-- Witness of C3 (amended): the fresh Running game with 250 ms elapsed at interval 100:
the sum 250 and the differences 150 and 50 are binary64 numbers. -/
theorem tickDouble_runs_floor_steps_when_exact_witness :
    (freshRunning.state = State.Running ∧ 0 < freshRunning.interval ∧
      0 ≤ freshRunning.acc ∧ (0 : ℚ) ≤ 250 ∧ freshRunning.snake ≠ [] ∧
      ⌊(freshRunning.acc + 250) / freshRunning.interval⌋₊ ≤ 2 ∧
      TickExact freshRunning 250) ∧
    ∃ g1, tickDouble 2 250 freshRunning = Except.ok g1 ∧
      stepCount g1 =
        stepCount freshRunning + ⌊(freshRunning.acc + 250) / freshRunning.interval⌋₊ ∧
      g1.acc = (freshRunning.acc + 250) -
        (⌊(freshRunning.acc + 250) / freshRunning.interval⌋₊ : ℚ) * freshRunning.interval ∧
      0 ≤ g1.acc ∧ g1.acc < freshRunning.interval ∧
      (freshRunning.acc = 0 → (250 : ℚ) = 5 / 2 * freshRunning.interval →
        stepCount g1 = stepCount freshRunning + 2 ∧ g1.acc = 1 / 2 * freshRunning.interval) :=
  have h : freshRunning.state = State.Running ∧ 0 < freshRunning.interval ∧
      0 ≤ freshRunning.acc ∧ (0 : ℚ) ≤ 250 ∧ freshRunning.snake ≠ [] ∧
      ⌊(freshRunning.acc + 250) / freshRunning.interval⌋₊ ≤ 2 ∧
      TickExact freshRunning 250 := by decide!
  ⟨h, (tickDouble_runs_floor_steps_when_exact freshRunning 250 2).1 h.1 h.2.1 h.2.2.1
    h.2.2.2.1 h.2.2.2.2.1 h.2.2.2.2.2.1 h.2.2.2.2.2.2⟩

/-- C18 (counterexample): in binary64 arithmetic two ticks are not one tick of the sum.
After `setSpeed(15)`, with `acc = 0`, `tick(183.3)` runs two steps and leaves
49.96666666666666; `tick(16.7)` then lifts the accumulator to the interval
66.66666666666667 itself and runs a third step, leaving 0.  The sum `183.3 + 16.7` is the
double 200, and a single `tick(200)` runs two steps and leaves 66.66666666666664.  All states
are Running, and the snakes differ by one cell. -/
theorem tickDouble_split_adds_a_step :
    speedFifteen.state = State.Running ∧ speedFifteen.acc = 0 ∧ stepCount speedFifteen = 0 ∧
      speedFifteen.interval = 4691249611844267 / 70368744177664 ∧
      roundDouble (roundDouble (1833 / 10) + roundDouble (167 / 10)) = 200 ∧
      timing (tickDouble 3 (roundDouble (1833 / 10)) speedFifteen) =
        some (State.Running, 2, 1758045792038639 / 35184372088832,
          4691249611844267 / 70368744177664, [⟨4, 10⟩, ⟨5, 10⟩, ⟨6, 10⟩, ⟨7, 10⟩]) ∧
      timing (tickTwiceDouble 3 (roundDouble (1833 / 10)) (roundDouble (167 / 10))
          speedFifteen) =
        some (State.Running, 3, 0, 4691249611844267 / 70368744177664,
          [⟨5, 10⟩, ⟨6, 10⟩, ⟨7, 10⟩, ⟨8, 10⟩]) ∧
      timing (tickDouble 3 200 speedFifteen) =
        some (State.Running, 2, 4691249611844265 / 70368744177664,
          4691249611844267 / 70368744177664, [⟨4, 10⟩, ⟨5, 10⟩, ⟨6, 10⟩, ⟨7, 10⟩]) := by
  refine ⟨?_, ?_, ?_, ?_, ?_, ?_, ?_, ?_⟩ <;> decide!

/-- C18 (amended): in binary64 arithmetic, in a Running state with a positive interval, a
non-negative accumulator and a non-empty snake, let `dt1` and `dt2` be non-negative and
suppose that no operation rounds: not the sum `dt1 + dt2`, not the operations of `tick(dt1)`
and of `tick(dt1 + dt2)` on the state, and not those of `tick(dt2)` on the state that
`tick(dt1)` returns.  Then, when the first tick ends Running, `tick(dt1)` followed by
`tick(dt2)` returns, on the same random stream, the very state that a single
`tick(dt1 + dt2)` returns. -/
theorem tickDouble_frame_rate_when_exact (g : Game) (dt1 dt2 : ℚ) (fuel : Nat)
    (hrun : g.state = State.Running) (hI : 0 < g.interval) (ha : 0 ≤ g.acc)
    (h1 : 0 ≤ dt1) (h2 : 0 ≤ dt2) (hne : g.snake ≠ [])
    (hfuel : ⌊(g.acc + (dt1 + dt2)) / g.interval⌋₊ ≤ fuel)
    (hsum : Exact (dt1 + dt2)) (hex1 : TickExact g dt1) (hex3 : TickExact g (dt1 + dt2)) :
    ∃ g1, tickDouble fuel dt1 g = Except.ok g1 ∧
      (g1.state = State.Running → TickExact g1 dt2 →
        ∃ g2, tickDouble fuel dt2 g1 = Except.ok g2 ∧
          tickDouble fuel (roundDouble (dt1 + dt2)) g = Except.ok g2) := by
  have hmono : ⌊(g.acc + dt1) / g.interval⌋₊ ≤ fuel :=
    le_trans (Nat.floor_mono (div_le_div_of_nonneg_right (by linarith) hI.le)) hfuel
  obtain ⟨g1, hg1, hrest⟩ :=
    tick_is_frame_rate_independent g dt1 dt2 fuel hrun hI ha h1 h2 hne hfuel
  have hd1 : tickDouble fuel dt1 g = Except.ok g1 := by
    rw [tickDouble_eq_tick g dt1 fuel hI (add_nonneg ha h1) hmono hex1]
    exact hg1
  refine ⟨g1, hd1, ?_⟩
  intro hrun1 hex2
  obtain ⟨g2, hg2, hg3⟩ := hrest hrun1
  -- the state after the first tick
  obtain ⟨g1x, hg1x, _, hacc1, hpos1, _⟩ :=
    (tick_runs_floor_steps g dt1 fuel).1 hrun hI ha h1 hne hmono
  rw [hg1] at hg1x
  cases hg1x
  have hint1 : g1.interval = g.interval := by
    unfold tickDouble at hd1
    rw [if_neg (not_not.mpr hrun)] at hd1
    exact (tickLoopDouble_exit fuel { g with acc := roundDouble (g.acc + dt1) } g1 hd1).2
  have hle1 : g1.acc ≤ g.acc + dt1 := by
    rw [hacc1]
    have : (0 : ℚ) ≤ (⌊(g.acc + dt1) / g.interval⌋₊ : ℚ) * g.interval :=
      mul_nonneg (Nat.cast_nonneg _) hI.le
    linarith
  have hfuel2 : ⌊(g1.acc + dt2) / g1.interval⌋₊ ≤ fuel := by
    rw [hint1]
    exact le_trans (Nat.floor_mono (div_le_div_of_nonneg_right (by linarith) hI.le)) hfuel
  refine ⟨g2, ?_, ?_⟩
  · rw [tickDouble_eq_tick g1 dt2 fuel (by rw [hint1]; exact hI) (add_nonneg hpos1 h2)
      hfuel2 hex2]
    exact hg2
  · rw [hsum.1, tickDouble_eq_tick g (dt1 + dt2) fuel hI
      (add_nonneg ha (add_nonneg h1 h2)) hfuel hex3]
    exact hg3

/-- Witness of C18 (amended): a Running game at interval 100 with 150 ms and then 100 ms
against 250 ms at once; all sums and differences are binary64 numbers. -/
theorem tickDouble_frame_rate_when_exact_witness :
    (freshRunning.state = State.Running ∧ 0 < freshRunning.interval ∧ 0 ≤ freshRunning.acc ∧
      (0 : ℚ) ≤ 150 ∧ (0 : ℚ) ≤ 100 ∧ freshRunning.snake ≠ [] ∧
      ⌊(freshRunning.acc + (150 + 100)) / freshRunning.interval⌋₊ ≤ 2 ∧
      Exact (150 + 100) ∧ TickExact freshRunning 150 ∧ TickExact freshRunning (150 + 100)) ∧
    ∃ g1 g2, tickDouble 2 150 freshRunning = Except.ok g1 ∧ g1.state = State.Running ∧
      TickExact g1 100 ∧ tickDouble 2 100 g1 = Except.ok g2 ∧
      tickDouble 2 (roundDouble (150 + 100)) freshRunning = Except.ok g2 := by
  have h : freshRunning.state = State.Running ∧ 0 < freshRunning.interval ∧
      0 ≤ freshRunning.acc ∧ (0 : ℚ) ≤ 150 ∧ (0 : ℚ) ≤ 100 ∧ freshRunning.snake ≠ [] ∧
      ⌊(freshRunning.acc + (150 + 100)) / freshRunning.interval⌋₊ ≤ 2 ∧
      Exact (150 + 100) ∧ TickExact freshRunning 150 ∧
      TickExact freshRunning (150 + 100) := by
    refine ⟨?_, ?_, ?_, ?_, ?_, ?_, ?_, ?_, ?_, ?_⟩ <;> decide!
  have hv : (timing (tickDouble 2 150 freshRunning)).map (fun v => (v.1, v.2.2.1, v.2.2.2.1)) =
      some (State.Running, 50, 100) := by decide!
  obtain ⟨g1, hg1, hrest⟩ := tickDouble_frame_rate_when_exact freshRunning 150 100 2
    h.1 h.2.1 h.2.2.1 h.2.2.2.1 h.2.2.2.2.1 h.2.2.2.2.2.1 h.2.2.2.2.2.2.1
    h.2.2.2.2.2.2.2.1 h.2.2.2.2.2.2.2.2.1 h.2.2.2.2.2.2.2.2.2
  rw [hg1] at hv
  simp only [timing, Option.map_some', Option.some.injEq, Prod.mk.injEq] at hv
  have hex2 : TickExact g1 100 := by
    unfold TickExact
    rw [hv.2.1, hv.2.2]
    decide!
  obtain ⟨g2, hg2, hg3⟩ := hrest hv.1 hex2
  exact ⟨h, g1, g2, hg1, hv.1, hex2, hg2, hg3⟩

end SnakeGame
